import Mathlib

/-!
Verification of the bayespec result/diagnostics engine against its source:
`elisa/plot/data.py` (per-dataset diagnostic cache, signs, residuals, PIT
edge handling), `elisa/infer/analysis.py` (confidence intervals and the
parametric bootstrap cache) and `elisa/plot/plotter.py` (PIT-ECDF band).

Conventions of the shallow embedding:
* numpy 1-D arrays of numbers are `List ℚ` (`Arr`), 2-D arrays whose first
  axis is the replicate axis are `List (List ℚ)` (`Arr2`);
* Python object identities (the values returned by `id(...)`) are `ℕ`;
* Python dicts (which preserve insertion order) are association lists
  `List (String × _)`; a dict comprehension is a `map`/`filter`;
* fallible code (`raise`, `KeyError`) returns `Except String _`;
* external collaborators (Minuit, the simulator and batched refitter) are
  parameters of the embedding, bundled in environment structures.
-/

set_option linter.unusedVariables false

namespace Elisa

abbrev Arr := List ℚ
abbrev Arr2 := List (List ℚ)

/-! ## The diagnostic cache of `elisa/plot/data.py` (lines 38-105)

`_cache_method` wraps a bound method with `functools.cache`: the table maps
the call arguments to the previously computed value.  `_cache_method_with_check`
additionally records, for the named fields of the owning instance, the object
identity (`id(getattr(instance, field))`) seen at the last computation; on each
call it first compares the current identities with the recorded ones, clearing
the whole table when any differ.  The current attribute environment of the
instance is modelled as `fields : String → ℕ`, mapping a field name to the
identity of the object the field is currently bound to: rebinding a field to a
new object (even one holding identical values) changes this number and nothing
else.  A call returns the value, the updated cache state, and whether the
underlying method was actually run (`true` = recomputed).
-/

/-- `get_id` of `_cache_method_with_check` (data.py line 48): the dict of
current identities of the tracked fields. -/
def getId (checkFields : List String) (fields : String → ℕ) : List (String × ℕ) :=
  checkFields.map (fun f => (f, fields f))

/-- State of a `functools.cache`-wrapped bound method: its memo table. -/
structure PureCache (κ α : Type) where
  table : List (κ × α)
deriving DecidableEq

/-- State of a `_cache_method_with_check` wrapper: the memo table of the inner
`functools.cache`, plus `old_id`, the tracked identities captured at the last
(re)computation (initialised at wrap time from the instance). -/
structure CheckedCache (κ α : Type) where
  table : List (κ × α)
  oldId : List (String × ℕ)
deriving DecidableEq

/-- Association-list lookup (first match), the model of a Python dict read. -/
def alookup {α : Type} : List (String × α) → String → Option α
  | [], _ => none
  | kv :: rest, k => if kv.1 = k then some kv.2 else alookup rest k

/-- Keyed memo lookup for `functools.cache`. -/
def memoFind {κ α : Type} [DecidableEq κ] : List (κ × α) → κ → Option α
  | [], _ => none
  | kv :: rest, k => if kv.1 = k then some kv.2 else memoFind rest k

/-- `_cache_method` (data.py lines 38-40): plain `functools.cache` on a bound
method.  `compute` is the underlying bound method, reading the instance
attributes `fields` and the call argument. -/
def cacheMethod {κ α : Type} [DecidableEq κ] (compute : (String → ℕ) → κ → α)
    (fields : String → ℕ) (arg : κ) (s : PureCache κ α) :
    α × PureCache κ α × Bool :=
  match memoFind s.table arg with
  | some v => (v, s, false)
  | none => (compute fields arg, ⟨(arg, compute fields arg) :: s.table⟩, true)

/-- `_cache_method_with_check` (data.py lines 43-61): before consulting the
memo table, compare the current identities of the tracked fields with
`old_id`; on any difference, `cache_clear()` the table and overwrite
`old_id` with the new identities. -/
def cacheMethodWithCheck {κ α : Type} [DecidableEq κ] (checkFields : List String)
    (compute : (String → ℕ) → κ → α) (fields : String → ℕ) (arg : κ)
    (s : CheckedCache κ α) : α × CheckedCache κ α × Bool :=
  let newId := getId checkFields fields
  let s1 := if newId ≠ s.oldId then ⟨[], newId⟩ else s
  match memoFind s1.table arg with
  | some v => (v, s1, false)
  | none => (compute fields arg, ⟨(arg, compute fields arg) :: s1.table, s1.oldId⟩, true)

/-- Initial state of a `_cache_method` wrapper: empty memo table. -/
def PureCache.init (κ α : Type) : PureCache κ α := ⟨[]⟩

/-- Initial state of a `_cache_method_with_check` wrapper: empty memo table and
`old_id = get_id()` captured at wrap time (data.py line 52), i.e. from the
attribute environment at instance construction. -/
def CheckedCache.init (κ α : Type) (checkFields : List String)
    (fields : String → ℕ) : CheckedCache κ α := ⟨[], getId checkFields fields⟩

/-- The pure-cached methods registered on `MLEPlotData` via `_to_cached_method`
(data.py lines 281, 327, 429, 447), in decoration order. -/
def MLEPlotData.cachedMethods : List String :=
  ["_sign_mle", "pit", "deviance_residuals_mle", "pearson_residuals_mle"]

/-- The dependency-checked methods registered on `MLEPlotData` via
`_to_cached_method_with_check` with tracked field `'boot'` (data.py lines
228-230, 263, 285, 433, 451), in decoration order. -/
def MLEPlotData.cachedMethodsWithCheck : List (String × List String) :=
  [("ce_model_ci", ["boot"]), ("_sign_boot", ["boot"]),
   ("deviance_residuals_boot", ["boot"]), ("pearson_residuals_boot", ["boot"])]

/-! ## `MLEResult` of `elisa/infer/analysis.py`

The fields of `MLEResult` that `ci`/`boot` read are modelled as `MLEState`
(mutable part) plus `FitEnv`/`BootEnv` (immutable data and the external
collaborators: Minuit's minos search, the parameter back-transform, the
simulator and the batched refitter).  Newly allocated Python objects receive
a fresh identity from the `nextId` counter, so identity equality of two
`BootstrapResult`s is equality of their `ident` fields. -/

/-- `BootstrapResult` (analysis.py lines 39-50).  The per-replicate array
fields are lists indexed by replicate; `p_value` is an unfilled placeholder
(`...`) in the source and is omitted. -/
structure BootstrapResult where
  ident : ℕ
  simulation : List ℚ
  params : List (String × List ℚ)
  devianceTotal : List ℚ
  valid : List Bool
  n : ℕ
  nValid : ℕ
  seed : ℕ
deriving DecidableEq

/-- The mutable state of an `MLEResult`: the Minuit validity flag, the seed
fixed at construction (`self._seed`), the cached bootstrap result
(`self._boot`, initially `None`) and the allocator counter for fresh object
identities. -/
structure MLEState where
  valid : Bool
  seed : ℕ
  cachedBoot : Option BootstrapResult
  nextId : ℕ
deriving DecidableEq

/-- Every object reachable from the state has an identity older than the
allocator counter, so a freshly allocated object is distinct from it. -/
def MLEState.freshIds (st : MLEState) : Bool :=
  match st.cachedBoot with
  | none => true
  | some b => b.ident < st.nextId

/-- External collaborators of `MLEResult.boot`: `self._simulator` and
`self._batch_fit` (analysis.py lines 374-375, 381, 396) together with the
parameter-name list.  `refitParam k i` is the refit value of parameter `k`
at replicate `i`, etc.; the result container built in `boot` has arrays of
length `n` which the batched refit fills elementwise. -/
structure BootEnv where
  paramsNames : List String
  simData : ℕ → ℚ
  refitParam : String → ℕ → ℚ
  refitStat : ℕ → ℚ
  refitValid : ℕ → Bool

/-- The simulate-and-refit path of `MLEResult.boot` (analysis.py lines
381-416): build the length-`n` result container, run the batched refit,
assemble a fresh `BootstrapResult` and replace the cache
(`self._boot = boot_result`). -/
def MLEResult.bootCompute (env : BootEnv) (st : MLEState) (n : ℕ) :
    Except String BootstrapResult × MLEState × Bool :=
  let validArr := (List.range n).map env.refitValid
  let b : BootstrapResult :=
    { ident := st.nextId
      simulation := (List.range n).map env.simData
      params := env.paramsNames.map (fun k => (k, (List.range n).map (env.refitParam k)))
      devianceTotal := (List.range n).map env.refitStat
      valid := validArr
      n := n
      nValid := validArr.count true
      seed := st.seed }
  (.ok b, { st with cachedBoot := some b, nextId := st.nextId + 1 }, true)

/-- `MLEResult.boot` (analysis.py lines 356-416).  Returns the result (or the
error raised), the updated state, and whether the simulate-and-refit loop was
actually run (`true` = recomputed). -/
def MLEResult.boot (env : BootEnv) (st : MLEState) (n : ℕ) :
    Except String BootstrapResult × MLEState × Bool :=
  if st.valid = false then
    (.error "fit must be valid to perform bootstrap", st, false)
  else
    -- directly return previous result if the configuration is the same
    match st.cachedBoot with
    | some b =>
      if b.n = n ∧ b.seed = st.seed then (.ok b, st, false)
      else MLEResult.bootCompute env st n
    | none => MLEResult.bootCompute env st n

/-! ### `MLEResult.ci` (analysis.py lines 182-354) -/

/-- A numeric leaf of a result dict: either a raw scalar as produced by the
numeric collaborators (a jax/numpy 0-d array) or a value that has been passed
through Python `float`. -/
inductive PyNum where
  | arr : ℚ → PyNum
  | float : ℚ → PyNum
deriving DecidableEq

/-- Whether a leaf has been coerced to a Python float. -/
def PyNum.isFloat : PyNum → Bool
  | .float _ => true
  | .arr _ => false

/-- One parameter's minos status block (analysis.py lines 284-292): the
(lower, upper) pairs of the `valid`, `at_limit`, `at_max_fcn` and `new_min`
flags. -/
structure MinosStatus where
  valid : Bool × Bool
  atLimit : Bool × Bool
  atMaxFcn : Bool × Bool
  newMin : Bool × Bool
deriving DecidableEq

/-- The method-dependent `status` field of a `ConfidenceInterval`: per-parameter
minos flags for the profile method, replicate counts for the bootstrap
method. -/
inductive CIStatus where
  | profile : List (String × MinosStatus) → CIStatus
  | boot : ℕ → ℕ → CIStatus
deriving DecidableEq

/-- `ConfidenceInterval` (analysis.py lines 18-26). -/
structure ConfidenceInterval where
  mle : List (String × PyNum)
  interval : List (String × (PyNum × PyNum))
  error : List (String × (PyNum × PyNum))
  cl : ℚ
  method : String
  status : CIStatus
deriving DecidableEq

/-- The immutable fit data and external collaborators read by `ci`.
`profileBounds k p` is the physical-space (lower, upper) bound pair obtained
from the minos profile search for free parameter `k` at probability level `p`
followed by the `to_params_dict` back-transform (with the other free
parameters held at their MLE unconstrained values); `compositeErrors p q` is
the (lower, upper) error pair of the augmented-loss minos run for composite
parameter `p`.  Minuit's `minos` receives the raw `cl` argument and, per its
documented convention, interprets `cl >= 1` as a number of standard
deviations exactly as `norm.sf`-based normalisation does, so the collaborators
are modelled as functions of the normalised probability level. -/
structure FitEnv where
  paramsNames : List String
  freeNames : List String
  compositeNames : List String
  interestNames : List String
  resultParams : List (String × ℚ)
  profileBounds : String → ℚ → ℚ × ℚ
  profileStatus : String → ℚ → MinosStatus
  compositeErrors : String → ℚ → ℚ × ℚ
  compositeStatus : String → ℚ → MinosStatus

/-- Resolution and validation of the `params` argument of `ci` (analysis.py
lines 227-250): `None` means all interest parameters; a single string must be
a known parameter; a sequence is validated as a whole, the error listing
every unknown name. -/
def resolveParams (env : FitEnv) :
    Option (Sum String (List String)) → Except String (List String)
  | none => .ok env.interestNames
  | some (.inl p) =>
    if env.paramsNames.contains p then .ok [p]
    else .error ("parameter: " ++ p ++ " is not exist")
  | some (.inr ps) =>
    if ps.all (fun p => env.paramsNames.contains p) then .ok ps
    else
      .error ("parameters: "
        ++ String.intercalate ", " (ps.filter (fun p => !env.paramsNames.contains p))
        ++ " are not exist")

/-- `cl_ = 1.0 - 2.0 * norm.sf(cl) if cl >= 1.0 else cl` (analysis.py line
255), with the normal survival function `norm.sf` as a parameter. -/
def normCl (sf : ℚ → ℚ) (cl : ℚ) : ℚ :=
  if 1 ≤ cl then 1 - 2 * sf cl else cl

/-- `np.quantile` with the default linear interpolation on the sorted data:
the quantile `q` of `xs` is read at virtual index `q * (len - 1)`. -/
def npQuantile (xs : List ℚ) (q : ℚ) : ℚ :=
  let s := xs.insertionSort (· ≤ ·)
  let h := q * ((s.length : ℚ) - 1)
  let i := h.floor.toNat
  let a := s.getD i 0
  let b := s.getD (i + 1) a
  a + (h - (h.floor : ℚ)) * (b - a)

/-- Python dict read `d[k]`, raising `KeyError` when absent. -/
def dread {α : Type} (d : List (String × α)) (k : String) : Except String α :=
  match alookup d k with
  | some v => .ok v
  | none => .error ("KeyError: " ++ k)

/-- A dict comprehension `{k: f(k) for k in ks}` whose body may raise:
evaluates left to right, propagating the first error. -/
def mapPairs {α : Type} (f : String → Except String α) :
    List String → Except String (List (String × α))
  | [] => .ok []
  | k :: ks =>
    match f k with
    | .error e => .error e
    | .ok v =>
      match mapPairs f ks with
      | .error e => .error e
      | .ok rest => .ok ((k, v) :: rest)

/-- `format_result` (analysis.py lines 342-345) coerces every numeric leaf to
Python float (`jax.tree_map(float, v)`) and reorders the dict to the requested
parameter order (`{k: formatted[k] for k in params}`, a `KeyError` if a
requested name is absent); below, one instance per leaf shape. -/
def formatScalars (params : List String) (d : List (String × ℚ)) :
    Except String (List (String × PyNum)) :=
  mapPairs (fun k => (dread d k).map (fun v => PyNum.float v)) params

/-- `format_result` for a dict of (lower, upper) pairs. -/
def formatPairs (params : List String) (d : List (String × (ℚ × ℚ))) :
    Except String (List (String × (PyNum × PyNum))) :=
  mapPairs (fun k => (dread d k).map (fun v => (PyNum.float v.1, PyNum.float v.2))) params

/-- The profile-likelihood branch of `ci` (analysis.py lines 264-322):
free parameters via `minuit.minos` plus back-transform, composite parameters
via the augmented-loss trick, both read through the collaborators of
`FitEnv`. -/
def profileCore (env : FitEnv) (freeP compP : List String)
    (mleD : List (String × ℚ)) (cl' : ℚ) :
    Except String
      ((List (String × (ℚ × ℚ))) × (List (String × (ℚ × ℚ))) × CIStatus) :=
  let intervalFree := freeP.map (fun k => (k, env.profileBounds k cl'))
  let statusFree := freeP.map (fun k => (k, env.profileStatus k cl'))
  match mapPairs (fun k =>
      (dread mleD k).map (fun mk =>
        ((env.profileBounds k cl').1 - mk, (env.profileBounds k cl').2 - mk))) freeP with
  | .error e => .error e
  | .ok errorFree =>
    match mapPairs (fun p =>
        (dread mleD p).map (fun mp =>
          (mp + (env.compositeErrors p cl').1, mp + (env.compositeErrors p cl').2))) compP with
    | .error e => .error e
    | .ok intervalComp =>
      let errorComp := compP.map (fun p => (p, env.compositeErrors p cl'))
      let statusComp := compP.map (fun p => (p, env.compositeStatus p cl'))
      .ok (intervalFree ++ intervalComp, errorFree ++ errorComp,
        CIStatus.profile (statusFree ++ statusComp))

/-- The bootstrap branch of `ci` (analysis.py lines 324-337): empirical
quantiles at `(0.5 - cl_/2, 0.5 + cl_/2)` of the replicate distribution of
every requested parameter. -/
def bootCore (params : List String) (mleD : List (String × ℚ)) (cl' : ℚ)
    (b : BootstrapResult) :
    Except String
      ((List (String × (ℚ × ℚ))) × (List (String × (ℚ × ℚ))) × CIStatus) :=
  let interval := (b.params.filter (fun kv => params.contains kv.1)).map
    (fun kv => (kv.1, (npQuantile kv.2 (1/2 - cl'/2), npQuantile kv.2 (1/2 + cl'/2))))
  match mapPairs (fun k =>
      match dread interval k, dread mleD k with
      | .ok iv, .ok mk => .ok (iv.1 - mk, iv.2 - mk)
      | .error e, _ => .error e
      | _, .error e => .error e) params with
  | .error e => .error e
  | .ok error => .ok (interval, error, CIStatus.boot b.n b.nValid)

/-- Assembly of the returned `ConfidenceInterval` (analysis.py lines 347-354):
the three dicts pass through `format_result`, and `cl` records the normalised
level `cl_`. -/
def ciAssemble (params : List String) (mleD : List (String × ℚ)) (cl' : ℚ)
    (method : String)
    (core : (List (String × (ℚ × ℚ))) × (List (String × (ℚ × ℚ))) × CIStatus) :
    Except String ConfidenceInterval :=
  match formatScalars params mleD with
  | .error e => .error e
  | .ok fm =>
    match formatPairs params core.1 with
    | .error e => .error e
    | .ok fi =>
      match formatPairs params core.2.1 with
      | .error e => .error e
      | .ok fe => .ok ⟨fm, fi, fe, cl', method, core.2.2⟩

/-- `MLEResult.ci` at an already-normalised confidence level `cl'`: validity
check, parameter validation, split into free/composite, method dispatch,
formatting.  The second component is the updated state (the bootstrap branch
may compute and cache a `BootstrapResult`). -/
def MLEResult.ciWithLevel (env : FitEnv) (benv : BootEnv) (st : MLEState)
    (params? : Option (Sum String (List String))) (cl' : ℚ) (method : String)
    (nOpt : Option ℕ) : Except String ConfidenceInterval × MLEState :=
  if st.valid = false then
    (.error "fit must be valid to calculate confidence interval", st)
  else
    match resolveParams env params? with
    | .error e => (.error e, st)
    | .ok params =>
      let freeP := params.filter (fun p => env.freeNames.contains p)
      let compP := params.filter (fun p => env.compositeNames.contains p)
      let mleD := env.resultParams.filter (fun kv => params.contains kv.1)
      if method = "profile" then
        match profileCore env freeP compP mleD cl' with
        | .error e => (.error e, st)
        | .ok core => (ciAssemble params mleD cl' method core, st)
      else if method = "boot" then
        match MLEResult.boot benv st (nOpt.getD 10000) with
        | (.error e, st', _) => (.error e, st')
        | (.ok b, st', _) =>
          match bootCore params mleD cl' b with
          | .error e => (.error e, st')
          | .ok core => (ciAssemble params mleD cl' method core, st')
      else
        (.error "method must be either \x22profile\x22 or \x22boot\x22", st)

/-- `MLEResult.ci` (analysis.py lines 182-354).  The level argument `cl`
enters the computation only through the normalised probability `cl_`
(analysis.py line 255); the raw `cl` is also forwarded to Minuit's `minos`,
which applies the identical sigma-count convention, so the profile
collaborators receive the normalised level. -/
def MLEResult.ci (env : FitEnv) (sf : ℚ → ℚ) (benv : BootEnv) (st : MLEState)
    (params? : Option (Sum String (List String))) (cl : ℚ) (method : String)
    (nOpt : Option ℕ) : Except String ConfidenceInterval × MLEState :=
  MLEResult.ciWithLevel env benv st params? (normCl sf cl) method nOpt

/-! ## Residuals and PIT edge handling (`elisa/plot/data.py`)

The statistic-family sets live in `elisa/infer/likelihood.py`, which is not
part of the analysed sources; they are reconstructed from the spec's four
statistic families and the dispatch comments in `data.py` (`# chi2`,
`# pgstat`, `# wstat`, `# cstat, or pstat`). -/

/-- Modelled from the spec: `_STATISTIC_SPEC_NORMAL` of
`elisa/infer/likelihood.py` (not in the analysed sources) — the statistics
with a Gaussian measurement model for the spectrum. -/
def STATISTIC_SPEC_NORMAL : List String := ["chi2"]

/-- Modelled from the spec: `_STATISTIC_WITH_BACK` of
`elisa/infer/likelihood.py` (not in the analysed sources) — the statistics
with a measured background. -/
def STATISTIC_WITH_BACK : List String := ["pgstat", "wstat"]

/-- Modelled from the spec: `_STATISTIC_BACK_NORMAL` of
`elisa/infer/likelihood.py` (not in the analysed sources) — the statistics
with a Gaussian background measurement. -/
def STATISTIC_BACK_NORMAL : List String := ["pgstat"]

/-- Elementwise `np.where(data >= model, 1.0, -1.0)`. -/
def signElem (o m : ℚ) : ℚ := if m ≤ o then 1 else -1

/-- `np.where(a >= b, 1.0, -1.0)` on 1-D arrays (data.py lines 282-283,
289). -/
def whereGe (a b : Arr) : Arr := List.zipWith signElem a b

/-- A three-list `zipWith`, the model of an elementwise numpy operation on
three aligned arrays. -/
def zip3 {α β γ δ : Type} (f : α → β → γ → δ) :
    List α → List β → List γ → List δ
  | a :: as, b :: bs, c :: cs => f a b c :: zip3 f as bs cs
  | _, _, _ => []

/-- Elementwise `np.sqrt` on a 1-D array. -/
noncomputable def sqrtArr (a : Arr) : List ℝ := a.map (fun (x : ℚ) => Real.sqrt (x : ℝ))

/-- Elementwise product of a sign array with a real-valued array. -/
noncomputable def mulArr (s : Arr) (r : List ℝ) : List ℝ :=
  List.zipWith (fun (q : ℚ) (x : ℝ) => (q : ℝ) * x) s r

/-- The deviance-residual formula of `_deviance_residuals` (data.py lines
437-445) applied to one set of aligned channel arrays:
`sign * sqrt(deviance_point)` with `sign = np.where(ce_data >= ce_model, 1, -1)`.
For `rtype='mle'` this is the returned value itself; for `rtype='boot'` the
same expression is evaluated with 2-D arrays, see
`devianceResidualsBoot`. -/
noncomputable def devianceResidualsPoint (ceData ceModel devPoint : Arr) : List ℝ :=
  mulArr (whereGe ceData ceModel) (sqrtArr devPoint)

/-- Modelled from the spec: the per-channel deviance `point` decomposition of
`elisa/infer/likelihood.py` (not in the analysed sources) combines the on and
off (background) contributions of a channel into one entry, the background
being profiled out so that each src & bkg data pair has ~1 dof. -/
def combinedDeviancePoint (devOn devOff : Arr) : Arr :=
  List.zipWith (· + ·) devOn devOff

/-- The bootstrap arrays read by `MLEPlotData` diagnostics, replicate-major:
`ceData = boot.data[name]`, `ceModel = boot.models[name]`,
`onData = boot.data[name_Non]`, `onModel = boot.models[name_Non_model]`,
`offData = boot.data[name_Noff]`, `offModel = boot.models[name_Noff_model]`,
`devPoint = boot.deviance['point'][name]`. -/
structure BootEnsemble where
  ceData : Arr2
  ceModel : Arr2
  onData : Arr2
  onModel : Arr2
  offData : Arr2
  offModel : Arr2
  devPoint : Arr2
deriving DecidableEq

/-- `_sign_boot` (data.py lines 285-290) without its `None` guard:
`np.where(boot_data >= boot_model, 1.0, -1.0)` on replicate-major 2-D
arrays. -/
def sign_boot (dataBoot modelBoot : Arr2) : Arr2 :=
  List.zipWith whereGe dataBoot modelBoot

/-- `_deviance_residuals('boot')` (data.py lines 433-445) when a bootstrap
ensemble is present: `sign['boot'] * np.sqrt(deviance['boot'])`, an
elementwise product of 2-D arrays. -/
noncomputable def devianceResidualsBoot (b : BootEnsemble) : List (List ℝ) :=
  List.zipWith mulArr (sign_boot b.ceData b.ceModel) (b.devPoint.map sqrtArr)

/-- Modelled from the spec: `pearson_residuals` of `elisa/plot/residuals.py`
(not in the analysed sources) — `(observed - model) / sigma` with `sigma`
the known channel error when given and the model-implied Poisson standard
deviation `sqrt(model)` otherwise. -/
noncomputable def pearson_residuals (data model : Arr) : Option Arr → List ℝ
  | some std => zip3 (fun (o m s : ℚ) => ((o - m : ℚ) : ℝ) / (s : ℝ)) data model std
  | none => List.zipWith (fun (o m : ℚ) => ((o - m : ℚ) : ℝ) / Real.sqrt (m : ℝ)) data model

/-- The on/off quadrature combination of `_pearson_residuals` (data.py line
493): `sign * np.sqrt(r * r + r_b * r_b)` elementwise. -/
noncomputable def quadCombine (s : Arr) (r rB : List ℝ) : List ℝ :=
  zip3 (fun (q : ℚ) (x y : ℝ) => (q : ℝ) * Real.sqrt (x * x + y * y)) s r rB

/-- The Pearson-residual formula of `_pearson_residuals` (data.py lines
455-495) applied to one set of aligned channel arrays: the on-measurement
Pearson residual, combined in quadrature with the off-measurement one under
the shared `ce_data >= ce_model` sign when the statistic has a background.
`onData` is `net_counts` (Gaussian statistics) or `spec_counts` (otherwise)
at the point estimate, and the per-replicate simulated counts for the
bootstrap. -/
noncomputable def pearsonResidualFormula (stat : String)
    (ceD ceM onData onModel offData offModel netError backError : Arr) : List ℝ :=
  let std := if STATISTIC_SPEC_NORMAL.contains stat then some netError else none
  let r := pearson_residuals onData onModel std
  if STATISTIC_WITH_BACK.contains stat then
    let stdB := if STATISTIC_BACK_NORMAL.contains stat then some backError else none
    let rB := pearson_residuals offData offModel stdB
    quadCombine (whereGe ceD ceM) r rB
  else r

/-- `_pearson_residuals('mle')` (data.py lines 455-495): the formula at the
point-estimate arrays, the on data being `net_counts` for Gaussian statistics
and `spec_counts` otherwise, the off data being `back_counts`. -/
noncomputable def pearsonResidualsMLE (stat : String)
    (ceData ceModel netCounts specCounts onModel backCounts offModel
      netError backError : Arr) : List ℝ :=
  pearsonResidualFormula stat ceData ceModel
    (if STATISTIC_SPEC_NORMAL.contains stat then netCounts else specCounts)
    onModel backCounts offModel netError backError

/-- `_pearson_residuals('boot')` (data.py lines 455-495) when a bootstrap
ensemble is present: the same numpy expressions evaluated on replicate-major
2-D data arrays, the 1-D `net_error`/`back_error` arrays broadcasting across
the replicate axis. -/
noncomputable def pearsonResidualsBoot (stat : String) (b : BootEnsemble)
    (netError backError : Arr) : List (List ℝ) :=
  let std := if STATISTIC_SPEC_NORMAL.contains stat then some netError else none
  let r := List.zipWith (fun dd mm => pearson_residuals dd mm std) b.onData b.onModel
  if STATISTIC_WITH_BACK.contains stat then
    let stdB := if STATISTIC_BACK_NORMAL.contains stat then some backError else none
    let rB := List.zipWith (fun dd mm => pearson_residuals dd mm stdB) b.offData b.offModel
    zip3 quadCombine (sign_boot b.ceData b.ceModel) r rB
  else r

/-- `MLEPlotData.residuals_sim` (data.py lines 390-406): `None` when there is
no bootstrap ensemble or for quantile residuals; otherwise the 2-D
per-replicate deviance or Pearson residual array; `NotImplementedError` for
any other kind. -/
noncomputable def residualsSim (stat : String) (boot? : Option BootEnsemble)
    (netError backError : Arr) (rtype : String) :
    Except String (Option (List (List ℝ))) :=
  match boot? with
  | none => .ok none
  | some b =>
    if rtype = "quantile" then .ok none
    else if rtype = "deviance" then .ok (some (devianceResidualsBoot b))
    else if rtype = "pearson" then
      .ok (some (pearsonResidualsBoot stat b netError backError))
    else .error (rtype ++ " residual")

/-- `MLEPlotData._nsim` (data.py lines 323-325). -/
def MLEPlotData.nsim : ℕ := 10000

/-- `MLEPlotData.quantile_residuals_mle` (data.py lines 497-521) after the
optional randomisation: `pit` is the array of PIT values actually fed to
`stats.norm.ppf`.  Since the normal quantile function is a strictly
increasing bijection from (0, 1) onto the reals, a residual is represented
by the probability argument passed to `norm.ppf`: two residuals are equal
iff their arguments are, and a residual is unbounded (±inf) iff its argument
is exactly 0 or 1.  The scalar `lower = upper = False` of the source is the
all-false mask it broadcasts to. -/
def quantileResidualsMLE (stat : String) (nsim : ℕ) (pit : List ℚ) :
    List ℚ × List Bool × List Bool :=
  if stat = "pgstat" ∨ stat = "wstat" then
    let r1 := pit.map (fun p => if p = 0 then 1 / (nsim : ℚ) else p)
    let upper := pit.map (fun p => decide (p = 0))
    let r2 := List.zipWith (fun p x => if p = 1 then 1 - 1 / (nsim : ℚ) else x) pit r1
    let lower := pit.map (fun p => decide (p = 1))
    (r2, lower, upper)
  else
    (pit, List.replicate pit.length false, List.replicate pit.length false)

/-! ## The PIT-ECDF band of `elisa/plot/plotter.py` (lines 815-855) -/

/-- The binomial probability mass function, exact over ℚ. -/
def binomPmf (n : ℕ) (p : ℚ) (k : ℕ) : ℚ :=
  (n.choose k : ℚ) * p ^ k * (1 - p) ^ (n - k)

/-- `scipy.stats.binom.cdf` on the integers: 0 below the support, the partial
pmf sum capped at `n` above it. -/
def binomCdf (n : ℕ) (p : ℚ) (k : ℤ) : ℚ :=
  if k < 0 then 0 else ∑ j in Finset.range (min k.toNat n + 1), binomPmf n p j

/-- `scipy.stats.binom.ppf q n p` for `0 < q ≤ 1`: the least count whose CDF
reaches `q` (the escape disjunct caps the search at `n`, the top of the
support, where the CDF is 1). -/
def binomPpf (q : ℚ) (n : ℕ) (p : ℚ) : ℕ :=
  Nat.find (⟨n, Or.inl le_rfl⟩ : ∃ k, n ≤ k ∨ q ≤ binomCdf n p k)

/-- The integer lower bound of the PIT-ECDF band at one grid point before
division and clipping (plotter.py lines 834-837):
`lower = binom.ppf(lower_q, n, p)` nudged down by one where
`binom.cdf(lower, n, p) > lower_q`. -/
def pitEcdfLowerCount (n : ℕ) (cl : ℚ) (p : ℚ) : ℤ :=
  if (1/2 - cl * (1/2)) < binomCdf n p (binomPpf (1/2 - cl * (1/2)) n p : ℤ)
  then (binomPpf (1/2 - cl * (1/2)) n p : ℤ) - 1
  else (binomPpf (1/2 - cl * (1/2)) n p : ℤ)

/-- The integer upper bound of the PIT-ECDF band at one grid point before
division and clipping (plotter.py lines 840-843):
`upper = binom.ppf(upper_q, n, p)` nudged up by one where
`binom.cdf(upper, n, p) < upper_q`. -/
def pitEcdfUpperCount (n : ℕ) (cl : ℚ) (p : ℚ) : ℤ :=
  if binomCdf n p (binomPpf (1/2 + cl * (1/2)) n p : ℤ) < (1/2 + cl * (1/2))
  then (binomPpf (1/2 + cl * (1/2)) n p : ℤ) + 1
  else (binomPpf (1/2 + cl * (1/2)) n p : ℤ)

/-- `np.clip(x / n, 0.0, 1.0)` for an integer count `x`. -/
def clipUnit (n : ℕ) (x : ℤ) : ℚ :=
  min (max ((x : ℚ) / (n : ℚ)) 0) 1

/-- `np.linspace(0.0, 1.0, n + 1)`: the scaled-rank grid of `n + 1` equally
spaced points from 0 to 1 (plotter.py line 829). -/
def scaledRank (n : ℕ) : List ℚ :=
  (List.range (n + 1)).map (fun (i : ℕ) => (i : ℚ) / (n : ℚ))

/-- `get_pit_ecdf` (plotter.py lines 815-855): the scaled-rank grid, the
empirical CDF of the PIT values on the grid, the reference line, and the
pointwise lower/upper band, optionally detrended.  Returns
`(scaled_rank, pit_ecdf, line, lower, upper)`. -/
def get_pit_ecdf (pit : List ℚ) (cl : ℚ) (detrend : Bool) :
    List ℚ × List ℚ × List ℚ × List ℚ × List ℚ :=
  let n := pit.length
  let grid := scaledRank n
  let lower := grid.map (fun p => clipUnit n (pitEcdfLowerCount n cl p))
  let upper := grid.map (fun p => clipUnit n (pitEcdfUpperCount n cl p))
  let line := grid
  let pitEcdf := grid.map (fun t => ((pit.filter (fun x => x ≤ t)).length : ℚ) / (n : ℚ))
  if detrend then
    (grid, List.zipWith (· - ·) pitEcdf line, line.map (fun _ => (0 : ℚ)),
      List.zipWith (· - ·) lower line, List.zipWith (· - ·) upper line)
  else
    (grid, pitEcdf, line, lower, upper)

/-! ## Theorems -/

/-- C1: a dependency-checked cached method of a `PlotData` instance (the
registered ones track the field `'boot'`) computes once and returns the
cached value while the tracked identities are unchanged; after a tracked
field is rebound to a new object — identity is all that is compared, values
never are — the next call recomputes exactly once and later calls return the
new cached value; a pure-cached method computes once and never recomputes,
whatever happens to the fields. -/
theorem claim_C1 {κ α : Type} [DecidableEq κ] (checkFields : List String)
    (compute : (String → ℕ) → κ → α) (fields fields2 : String → ℕ) (arg : κ)
    (s : CheckedCache κ α) (t : PureCache κ α) (v : α) :
    (("ce_model_ci", ["boot"]) ∈ MLEPlotData.cachedMethodsWithCheck
      ∧ ("_sign_boot", ["boot"]) ∈ MLEPlotData.cachedMethodsWithCheck
      ∧ ("deviance_residuals_boot", ["boot"]) ∈ MLEPlotData.cachedMethodsWithCheck
      ∧ ("pearson_residuals_boot", ["boot"]) ∈ MLEPlotData.cachedMethodsWithCheck
      ∧ "_sign_mle" ∈ MLEPlotData.cachedMethods
      ∧ "pit" ∈ MLEPlotData.cachedMethods
      ∧ "deviance_residuals_mle" ∈ MLEPlotData.cachedMethods)
    ∧ (getId checkFields fields = s.oldId →
      (memoFind s.table arg = none →
        cacheMethodWithCheck checkFields compute fields arg s
          = (compute fields arg, ⟨(arg, compute fields arg) :: s.table, s.oldId⟩, true))
      ∧ (memoFind s.table arg = some v →
        cacheMethodWithCheck checkFields compute fields arg s = (v, s, false)))
    ∧ (getId checkFields fields ≠ s.oldId →
      cacheMethodWithCheck checkFields compute fields arg s
        = (compute fields arg,
            ⟨[(arg, compute fields arg)], getId checkFields fields⟩, true)
      ∧ cacheMethodWithCheck checkFields compute fields arg
          ⟨[(arg, compute fields arg)], getId checkFields fields⟩
        = (compute fields arg,
            ⟨[(arg, compute fields arg)], getId checkFields fields⟩, false))
    ∧ (memoFind t.table arg = none →
      cacheMethod compute fields arg t
        = (compute fields arg, ⟨(arg, compute fields arg) :: t.table⟩, true))
    ∧ (memoFind t.table arg = some v →
      cacheMethod compute fields2 arg t = (v, t, false)) := by
  refine ⟨⟨?_, ?_, ?_, ?_, ?_, ?_, ?_⟩, ?_, ?_, ?_, ?_⟩
  · simp [MLEPlotData.cachedMethodsWithCheck]
  · simp [MLEPlotData.cachedMethodsWithCheck]
  · simp [MLEPlotData.cachedMethodsWithCheck]
  · simp [MLEPlotData.cachedMethodsWithCheck]
  · simp [MLEPlotData.cachedMethods]
  · simp [MLEPlotData.cachedMethods]
  · simp [MLEPlotData.cachedMethods]
  · intro hid
    constructor
    · intro hm
      simp [cacheMethodWithCheck, hid, hm]
    · intro hm
      simp [cacheMethodWithCheck, hid, hm]
  · intro hid
    constructor
    · simp [cacheMethodWithCheck, hid, memoFind]
    · simp [cacheMethodWithCheck, memoFind]
  · intro hm
    simp [cacheMethod, hm]
  · intro hm
    simp [cacheMethod, hm]

/-- Witness for C1: a no-argument diagnostic whose value is the identity of
the tracked `boot` field.  Rebinding `boot` from identity 1 to identity 2
makes the first call recompute (memo entry replaced, flag `true`), the second
call hits the new cache (flag `false`); a pure-cached method keeps returning
its memoised value even after the fields change. -/
theorem claim_C1_witness :
    cacheMethodWithCheck ["boot"] (fun f (_ : Unit) => f "boot") (fun _ => 2) ()
        ⟨[((), 1)], [("boot", 1)]⟩
      = (2, ⟨[((), 2)], [("boot", 2)]⟩, true)
    ∧ cacheMethodWithCheck ["boot"] (fun f (_ : Unit) => f "boot") (fun _ => 2) ()
        ⟨[((), 2)], [("boot", 2)]⟩
      = (2, ⟨[((), 2)], [("boot", 2)]⟩, false)
    ∧ cacheMethod (fun f (_ : Unit) => f "boot") (fun _ => 9) () ⟨[((), 1)]⟩
      = (1, ⟨[((), 1)]⟩, false) := by
  have h := claim_C1 (κ := Unit) (α := ℕ) ["boot"] (fun f _ => f "boot")
    (fun _ => 2) (fun _ => 9) () ⟨[((), 1)], [("boot", 1)]⟩ ⟨[((), 1)]⟩ 1
  have hchange := h.2.2.1 (by decide)
  exact ⟨hchange.1, hchange.2, h.2.2.2.2 (by decide)⟩

/-- Facts about any successful `MLEResult.boot` call, shared by the bootstrap
theorems: the returned result is the one now cached, it records the requested
replicate count and the state's seed, and its identity is older than the
allocator counter. -/
theorem boot_ok_facts (env : BootEnv) (st : MLEState) (n : ℕ)
    (b1 : BootstrapResult) (st1 : MLEState) (f1 : Bool)
    (hv : st.valid = true) (hf : st.freshIds = true)
    (h1 : MLEResult.boot env st n = (.ok b1, st1, f1)) :
    st1.valid = true ∧ st1.seed = st.seed ∧ st1.cachedBoot = some b1
      ∧ b1.n = n ∧ b1.seed = st.seed ∧ b1.ident < st1.nextId := by
  unfold MLEResult.boot at h1
  rw [hv] at h1
  simp only [Bool.true_eq_false, if_false] at h1
  split at h1
  · rename_i b hc
    split at h1
    · rename_i hcond
      simp only [Prod.mk.injEq, Except.ok.injEq] at h1
      obtain ⟨hb1, hst1, _⟩ := h1
      subst hb1
      subst hst1
      refine ⟨hv, rfl, hc, hcond.1, hcond.2, ?_⟩
      unfold MLEState.freshIds at hf
      rw [hc] at hf
      exact of_decide_eq_true hf
    · unfold MLEResult.bootCompute at h1
      simp only [Prod.mk.injEq, Except.ok.injEq] at h1
      obtain ⟨hb1, hst1, _⟩ := h1
      subst hb1
      subst hst1
      exact ⟨hv, rfl, rfl, rfl, rfl, Nat.lt_succ_self _⟩
  · unfold MLEResult.bootCompute at h1
    simp only [Prod.mk.injEq, Except.ok.injEq] at h1
    obtain ⟨hb1, hst1, _⟩ := h1
    subst hb1
    subst hst1
    exact ⟨hv, rfl, rfl, rfl, rfl, Nat.lt_succ_self _⟩

/-- C2: after a successful `boot(n)`, calling `boot` again with the same `n`
returns the very same `BootstrapResult` object (identity-equal) without
recomputation and leaves the state untouched; calling with a different
replicate count `m` recomputes from scratch, returning a fresh object (new
identity) whose per-replicate array fields all have length `m`, and replaces
the cached result. -/
theorem claim_C2 (env : BootEnv) (st : MLEState) (n m : ℕ)
    (hv : st.valid = true) (hf : st.freshIds = true) (hnm : m ≠ n)
    (b1 : BootstrapResult) (st1 : MLEState) (f1 : Bool)
    (h1 : MLEResult.boot env st n = (.ok b1, st1, f1)) :
    MLEResult.boot env st1 n = (.ok b1, st1, false)
    ∧ ∀ b2 st2 f2, MLEResult.boot env st1 m = (.ok b2, st2, f2) →
        f2 = true ∧ b2.ident ≠ b1.ident ∧ st2.cachedBoot = some b2
        ∧ b2.n = m ∧ (∀ kv ∈ b2.params, kv.2.length = m)
        ∧ b2.valid.length = m ∧ b2.devianceTotal.length = m
        ∧ b2.simulation.length = m := by
  obtain ⟨hv1, hs1, hc1, hbn, hbs, hlt⟩ := boot_ok_facts env st n b1 st1 f1 hv hf h1
  constructor
  · unfold MLEResult.boot
    rw [hv1]
    simp only [Bool.true_eq_false, if_false]
    rw [hc1]
    simp only []
    rw [if_pos ⟨hbn, by rw [hbs, hs1]⟩]
  · intro b2 st2 f2 h2
    unfold MLEResult.boot at h2
    rw [hv1] at h2
    simp only [Bool.true_eq_false, if_false] at h2
    rw [hc1] at h2
    simp only [] at h2
    rw [if_neg (fun hcon => hnm (hcon.1.symm.trans hbn))] at h2
    unfold MLEResult.bootCompute at h2
    simp only [Prod.mk.injEq, Except.ok.injEq] at h2
    obtain ⟨hb2, hst2, hf2⟩ := h2
    subst hb2
    subst hst2
    refine ⟨hf2.symm, ?_, rfl, rfl, ?_, by simp, by simp, by simp⟩
    · exact fun hEq => absurd hEq.symm (Nat.ne_of_lt hlt)
    · intro kv hkv
      simp only [List.mem_map] at hkv
      obtain ⟨k, _, hkeq⟩ := hkv
      rw [← hkeq]
      simp

/-- Witness for C2: a one-parameter fit with a fixed seed; `boot 1` computes,
a repeated `boot 1` hands back the cached object, `boot 2` recomputes fresh
length-2 arrays. -/
theorem claim_C2_witness :
    MLEResult.boot ⟨["a"], fun _ => 0, fun _ _ => 0, fun _ => 0, fun _ => true⟩
        ⟨true, 5, some ⟨0, [0], [("a", [0])], [0], [true], 1, 1, 5⟩, 1⟩ 1
      = (.ok ⟨0, [0], [("a", [0])], [0], [true], 1, 1, 5⟩,
          ⟨true, 5, some ⟨0, [0], [("a", [0])], [0], [true], 1, 1, 5⟩, 1⟩, false)
    ∧ ((true = true) ∧ (1 : ℕ) ≠ 0
        ∧ (⟨true, 5,
              some ⟨1, [0, 0], [("a", [0, 0])], [0, 0], [true, true], 2, 2, 5⟩,
              2⟩ : MLEState).cachedBoot
            = some ⟨1, [0, 0], [("a", [0, 0])], [0, 0], [true, true], 2, 2, 5⟩
        ∧ (2 : ℕ) = 2
        ∧ (∀ kv ∈ [("a", [(0 : ℚ), 0])], (Prod.snd kv).length = 2)
        ∧ (2 : ℕ) = 2 ∧ (2 : ℕ) = 2 ∧ (2 : ℕ) = 2) := by
  have h := claim_C2 ⟨["a"], fun _ => 0, fun _ _ => 0, fun _ => 0, fun _ => true⟩
    ⟨true, 5, none, 0⟩ 1 2 rfl rfl (by decide)
    ⟨0, [0], [("a", [0])], [0], [true], 1, 1, 5⟩
    ⟨true, 5, some ⟨0, [0], [("a", [0])], [0], [true], 1, 1, 5⟩, 1⟩ true
    (by rfl)
  refine ⟨h.1, ?_⟩
  have h2 := h.2 ⟨1, [0, 0], [("a", [0, 0])], [0, 0], [true, true], 2, 2, 5⟩
    ⟨true, 5, some ⟨1, [0, 0], [("a", [0, 0])], [0, 0], [true, true], 2, 2, 5⟩, 2⟩
    true (by rfl)
  exact h2

/-- C9: on a fit that is not valid (`self._minuit.valid` false), both `ci`
and `boot` raise `RuntimeError` as their very first step, before any
profiling, simulation or refitting, and the stored state — in particular the
cached bootstrap result and the identity allocator — is returned
untouched. -/
theorem claim_C9 (env : FitEnv) (sf : ℚ → ℚ) (benv : BootEnv) (st : MLEState)
    (params? : Option (Sum String (List String))) (cl : ℚ) (method : String)
    (nOpt : Option ℕ) (n : ℕ) (hv : st.valid = false) :
    MLEResult.ci env sf benv st params? cl method nOpt
      = (.error "fit must be valid to calculate confidence interval", st)
    ∧ MLEResult.boot benv st n
      = (.error "fit must be valid to perform bootstrap", st, false) := by
  constructor
  · unfold MLEResult.ci MLEResult.ciWithLevel
    rw [hv]
    simp
  · unfold MLEResult.boot
    rw [hv]
    simp

/-- Witness for C9: an invalid fit with a cached bootstrap result; both
requests fail fast and the cache survives unchanged. -/
theorem claim_C9_witness :
    MLEResult.ci
        ⟨["a"], ["a"], [], ["a"], [("a", 1)], fun _ _ => (0, 0),
          fun _ _ => ⟨(true, true), (false, false), (false, false), (false, false)⟩,
          fun _ _ => (0, 0),
          fun _ _ => ⟨(true, true), (false, false), (false, false), (false, false)⟩⟩
        (fun _ => 1/4)
        ⟨["a"], fun _ => 0, fun _ _ => 0, fun _ => 0, fun _ => true⟩
        ⟨false, 5, some ⟨0, [0], [("a", [0])], [0], [true], 1, 1, 5⟩, 1⟩
        none 1 "profile" none
      = (.error "fit must be valid to calculate confidence interval",
          ⟨false, 5, some ⟨0, [0], [("a", [0])], [0], [true], 1, 1, 5⟩, 1⟩)
    ∧ MLEResult.boot ⟨["a"], fun _ => 0, fun _ _ => 0, fun _ => 0, fun _ => true⟩
        ⟨false, 5, some ⟨0, [0], [("a", [0])], [0], [true], 1, 1, 5⟩, 1⟩ 500
      = (.error "fit must be valid to perform bootstrap",
          ⟨false, 5, some ⟨0, [0], [("a", [0])], [0], [true], 1, 1, 5⟩, 1⟩, false) :=
  claim_C9
    ⟨["a"], ["a"], [], ["a"], [("a", 1)], fun _ _ => (0, 0),
      fun _ _ => ⟨(true, true), (false, false), (false, false), (false, false)⟩,
      fun _ _ => (0, 0),
      fun _ _ => ⟨(true, true), (false, false), (false, false), (false, false)⟩⟩
    (fun _ => 1/4)
    ⟨["a"], fun _ => 0, fun _ _ => 0, fun _ => 0, fun _ => true⟩
    ⟨false, 5, some ⟨0, [0], [("a", [0])], [0], [true], 1, 1, 5⟩, 1⟩
    none 1 "profile" none 500 rfl

/-- C8: with a valid fit, requesting intervals for a sequence of names of
which some are unknown fails with the aggregated "not exist" error before any
interval computation (the state, in particular the bootstrap cache, is
untouched), and the message lists exactly the invalid names, in request
order; a single unknown name fails with the singular message. -/
theorem claim_C8 (env : FitEnv) (sf : ℚ → ℚ) (benv : BootEnv) (st : MLEState)
    (cl : ℚ) (method : String) (nOpt : Option ℕ) (ps : List String)
    (q p : String) (hv : st.valid = true) :
    (q ∈ ps → env.paramsNames.contains q = false →
      MLEResult.ci env sf benv st (some (.inr ps)) cl method nOpt
        = (.error ("parameters: "
            ++ String.intercalate ", "
              (ps.filter (fun x => !env.paramsNames.contains x))
            ++ " are not exist"), st))
    ∧ (∀ r ∈ ps, env.paramsNames.contains r = false →
        r ∈ ps.filter (fun x => !env.paramsNames.contains x))
    ∧ (env.paramsNames.contains p = false →
      MLEResult.ci env sf benv st (some (.inl p)) cl method nOpt
        = (.error ("parameter: " ++ p ++ " is not exist"), st)) := by
  refine ⟨?_, ?_, ?_⟩
  · intro hq hbad
    have hall : ps.all (fun x => env.paramsNames.contains x) = false := by
      rw [← Bool.not_eq_true]
      intro hallT
      rw [List.all_eq_true] at hallT
      have hc := hallT q hq
      simp only [hbad] at hc
      exact Bool.noConfusion hc
    have hre : resolveParams env (some (.inr ps))
        = .error ("parameters: "
            ++ String.intercalate ", "
              (ps.filter (fun x => !env.paramsNames.contains x))
            ++ " are not exist") := by
      simp only [resolveParams]
      rw [hall]
      simp
    unfold MLEResult.ci MLEResult.ciWithLevel
    rw [hv]
    simp only [Bool.true_eq_false, if_false]
    rw [hre]
  · intro r hr hbad
    rw [List.mem_filter]
    refine ⟨hr, ?_⟩
    simp only [hbad]
    rfl
  · intro hbad
    have hre : resolveParams env (some (.inl p))
        = .error ("parameter: " ++ p ++ " is not exist") := by
      simp only [resolveParams]
      rw [hbad]
      simp
    unfold MLEResult.ci MLEResult.ciWithLevel
    rw [hv]
    simp only [Bool.true_eq_false, if_false]
    rw [hre]

/-- Witness for C8: parameters `["a", "zz", "yy"]` requested against the known
set `["a", "b"]`; the error message lists both `zz` and `yy`. -/
theorem claim_C8_witness :
    MLEResult.ci
        ⟨["a", "b"], ["a", "b"], [], ["a"], [("a", 1), ("b", 2)],
          fun _ _ => (0, 0),
          fun _ _ => ⟨(true, true), (false, false), (false, false), (false, false)⟩,
          fun _ _ => (0, 0),
          fun _ _ => ⟨(true, true), (false, false), (false, false), (false, false)⟩⟩
        (fun _ => 1/4)
        ⟨["a", "b"], fun _ => 0, fun _ _ => 0, fun _ => 0, fun _ => true⟩
        ⟨true, 5, none, 0⟩ (some (.inr ["a", "zz", "yy"])) 1 "profile" none
      = (.error "parameters: zz, yy are not exist", ⟨true, 5, none, 0⟩) := by
  have h := claim_C8
    ⟨["a", "b"], ["a", "b"], [], ["a"], [("a", 1), ("b", 2)],
      fun _ _ => (0, 0),
      fun _ _ => ⟨(true, true), (false, false), (false, false), (false, false)⟩,
      fun _ _ => (0, 0),
      fun _ _ => ⟨(true, true), (false, false), (false, false), (false, false)⟩⟩
    (fun _ => 1/4)
    ⟨["a", "b"], fun _ => 0, fun _ _ => 0, fun _ => 0, fun _ => true⟩
    ⟨true, 5, none, 0⟩ 1 "profile" none ["a", "zz", "yy"] "zz" "c" rfl
  have h1 := h.1 (by decide) (by decide)
  simpa using h1

/-- The `cl` recorded in a successfully assembled `ConfidenceInterval` is the
normalised level handed to the assembly. -/
theorem ciAssemble_cl (params : List String) (mleD : List (String × ℚ))
    (cl' : ℚ) (method : String)
    (core : (List (String × (ℚ × ℚ))) × (List (String × (ℚ × ℚ))) × CIStatus)
    (r : ConfidenceInterval)
    (h : ciAssemble params mleD cl' method core = .ok r) : r.cl = cl' := by
  unfold ciAssemble at h
  split at h
  · cases h
  · split at h
    · cases h
    · split at h
      · cases h
      · simp only [Except.ok.injEq] at h
        rw [← h]

/-- Any successful `ciWithLevel` records the normalised level it was given. -/
theorem ciWithLevel_cl (env : FitEnv) (benv : BootEnv) (st : MLEState)
    (params? : Option (Sum String (List String))) (cl' : ℚ) (method : String)
    (nOpt : Option ℕ) (r : ConfidenceInterval) (st' : MLEState)
    (h : MLEResult.ciWithLevel env benv st params? cl' method nOpt = (.ok r, st')) :
    r.cl = cl' := by
  unfold MLEResult.ciWithLevel at h
  split at h
  · simp at h
  · split at h
    · simp at h
    · dsimp only at h
      split at h
      · split at h
        · simp at h
        · simp only [Prod.mk.injEq] at h
          exact ciAssemble_cl _ _ _ _ _ _ h.1
      · split at h
        · split at h
          · simp at h
          · split at h
            · simp at h
            · simp only [Prod.mk.injEq] at h
              exact ciAssemble_cl _ _ _ _ _ _ h.1
        · simp at h

/-- C3: the confidence-level argument of `ci` is a probability when in
(0, 1) and a sigma count when `>= 1`, normalised by `1 - 2 * norm.sf(cl)`;
the recorded level of any successful call is the normalised one; and a
sigma-count request and its explicit-probability counterpart produce
identical results (identical interval bounds in particular), whatever the
method. -/
theorem claim_C3 (env : FitEnv) (sf : ℚ → ℚ) (benv : BootEnv) (st : MLEState)
    (params? : Option (Sum String (List String))) (method : String)
    (nOpt : Option ℕ) (hsf : 0 < sf 1) :
    (∀ cl, 1 ≤ cl → normCl sf cl = 1 - 2 * sf cl)
    ∧ (∀ cl, 0 < cl → cl < 1 → normCl sf cl = cl)
    ∧ (∀ cl r st',
        MLEResult.ci env sf benv st params? cl method nOpt = (.ok r, st') →
        r.cl = normCl sf cl)
    ∧ MLEResult.ci env sf benv st params? 1 method nOpt
        = MLEResult.ci env sf benv st params? (1 - 2 * sf 1) method nOpt := by
  refine ⟨?_, ?_, ?_, ?_⟩
  · intro cl h
    unfold normCl
    rw [if_pos h]
  · intro cl h0 h1
    unfold normCl
    rw [if_neg (not_le.mpr h1)]
  · intro cl r st' h
    exact ciWithLevel_cl env benv st params? (normCl sf cl) method nOpt r st' h
  · unfold MLEResult.ci
    have : normCl sf 1 = normCl sf (1 - 2 * sf 1) := by
      unfold normCl
      rw [if_pos le_rfl, if_neg (not_le.mpr (by linarith))]
    rw [this]

/-- Witness for C3: with `norm.sf(1) = 1/4` (any positive value works), a
1-sigma request and the request at probability `1 - 2/4 = 1/2` coincide. -/
theorem claim_C3_witness :
    normCl (fun _ => (1 : ℚ)/4) 1 = 1 - 2 * (1/4)
    ∧ MLEResult.ci
        ⟨["a"], ["a"], [], ["a"], [("a", 1)], fun _ _ => (0, 0),
          fun _ _ => ⟨(true, true), (false, false), (false, false), (false, false)⟩,
          fun _ _ => (0, 0),
          fun _ _ => ⟨(true, true), (false, false), (false, false), (false, false)⟩⟩
        (fun _ => 1/4)
        ⟨["a"], fun _ => 0, fun _ _ => 0, fun _ => 0, fun _ => true⟩
        ⟨true, 5, none, 0⟩ none 1 "boot" (some 3)
      = MLEResult.ci
        ⟨["a"], ["a"], [], ["a"], [("a", 1)], fun _ _ => (0, 0),
          fun _ _ => ⟨(true, true), (false, false), (false, false), (false, false)⟩,
          fun _ _ => (0, 0),
          fun _ _ => ⟨(true, true), (false, false), (false, false), (false, false)⟩⟩
        (fun _ => 1/4)
        ⟨["a"], fun _ => 0, fun _ _ => 0, fun _ => 0, fun _ => true⟩
        ⟨true, 5, none, 0⟩ none (1 - 2 * (1/4)) "boot" (some 3) := by
  have h := claim_C3
    ⟨["a"], ["a"], [], ["a"], [("a", 1)], fun _ _ => (0, 0),
      fun _ _ => ⟨(true, true), (false, false), (false, false), (false, false)⟩,
      fun _ _ => (0, 0),
      fun _ _ => ⟨(true, true), (false, false), (false, false), (false, false)⟩⟩
    (fun _ => (1 : ℚ)/4)
    ⟨["a"], fun _ => 0, fun _ _ => 0, fun _ => 0, fun _ => true⟩
    ⟨true, 5, none, 0⟩ none "boot" (some 3) (by norm_num)
  exact ⟨h.1 1 le_rfl, h.2.2.2⟩

/-- Reading an in-range position of a `zipWith` is the function applied to
the positions of the operands (any defaults). -/
theorem zipWith_getD {α β γ : Type} (f : α → β → γ) (a : List α) (b : List β)
    (i : ℕ) (da : α) (db : β) (dc : γ) (ha : i < a.length) (hb : i < b.length) :
    (List.zipWith f a b).getD i dc = f (a.getD i da) (b.getD i db) := by
  induction a generalizing b i with
  | nil => cases ha
  | cons x xs ih =>
    cases b with
    | nil => cases hb
    | cons y ys =>
      cases i with
      | zero => rfl
      | succ k =>
        simp only [List.zipWith_cons_cons, List.getD_cons_succ]
        exact ih ys k (Nat.lt_of_succ_lt_succ ha) (Nat.lt_of_succ_lt_succ hb)

/-- Reading an in-range position of a `map` (any defaults). -/
theorem map_getD {α β : Type} (f : α → β) (a : List α) (i : ℕ) (da : α)
    (db : β) (h : i < a.length) : (a.map f).getD i db = f (a.getD i da) := by
  induction a generalizing i with
  | nil => cases h
  | cons x xs ih =>
    cases i with
    | zero => rfl
    | succ k =>
      simp only [List.map_cons, List.getD_cons_succ]
      exact ih k (Nat.lt_of_succ_lt_succ h)

/-- Reading an in-range position of a `zip3`. -/
theorem zip3_getD {α β γ δ : Type} (f : α → β → γ → δ) (a : List α)
    (b : List β) (c : List γ) (i : ℕ) (da : α) (db : β) (dc : γ) (dd : δ)
    (ha : i < a.length) (hb : i < b.length) (hc : i < c.length) :
    (zip3 f a b c).getD i dd = f (a.getD i da) (b.getD i db) (c.getD i dc) := by
  induction a generalizing b c i with
  | nil => cases ha
  | cons x xs ih =>
    cases b with
    | nil => cases hb
    | cons y ys =>
      cases c with
      | nil => cases hc
      | cons z zs =>
        cases i with
        | zero => rfl
        | succ k =>
          simp only [zip3, List.getD_cons_succ]
          exact ih ys zs k (Nat.lt_of_succ_lt_succ ha)
            (Nat.lt_of_succ_lt_succ hb) (Nat.lt_of_succ_lt_succ hc)

/-- An in-range `getD` read is a member of the list. -/
theorem getD_mem {α : Type} (l : List α) (i : ℕ) (d : α) (h : i < l.length) :
    l.getD i d ∈ l := by
  induction l generalizing i with
  | nil => cases h
  | cons x xs ih =>
    cases i with
    | zero => exact List.mem_cons_self x xs
    | succ k =>
      simp only [List.getD_cons_succ]
      exact List.mem_cons_of_mem x (ih k (Nat.lt_of_succ_lt_succ h))

/-- C5: the per-channel residual sign is `+1` exactly when observed is at
least the model (ties give `+1`) and `-1` when observed is below the model,
and the MLE deviance residual is this sign times the square root of the
per-channel deviance contribution, the on and off contributions of a channel
being summed under the single shared sign before the square root. -/
theorem claim_C5 (o m : ℚ) (ceD ceM dOn dOff : Arr) (i : ℕ)
    (h1 : i < ceD.length) (h2 : i < ceM.length) (h3 : i < dOn.length)
    (h4 : i < dOff.length) :
    (m ≤ o → signElem o m = 1) ∧ (o < m → signElem o m = -1)
    ∧ signElem o o = 1
    ∧ (devianceResidualsPoint ceD ceM (combinedDeviancePoint dOn dOff)).getD i 0
      = (signElem (ceD.getD i 0) (ceM.getD i 0) : ℝ)
        * Real.sqrt ((dOn.getD i 0 : ℝ) + (dOff.getD i 0 : ℝ)) := by
  refine ⟨?_, ?_, ?_, ?_⟩
  · intro h
    unfold signElem
    rw [if_pos h]
  · intro h
    unfold signElem
    rw [if_neg (not_le.mpr h)]
  · unfold signElem
    rw [if_pos le_rfl]
  · have hdev : i < (combinedDeviancePoint dOn dOff).length := by
      simp [combinedDeviancePoint, List.length_zipWith]
      omega
    have hsign : i < (whereGe ceD ceM).length := by
      simp [whereGe, List.length_zipWith]
      omega
    have hsq : i < (combinedDeviancePoint dOn dOff).length := hdev
    unfold devianceResidualsPoint mulArr
    rw [zipWith_getD (fun (q : ℚ) (x : ℝ) => (q : ℝ) * x) (whereGe ceD ceM)
      (sqrtArr (combinedDeviancePoint dOn dOff)) i 0 0 0 hsign
      (by simpa [sqrtArr] using hsq)]
    unfold sqrtArr
    rw [map_getD (fun x : ℚ => Real.sqrt (x : ℝ)) _ i 0 0 hdev]
    unfold whereGe
    rw [zipWith_getD signElem _ _ i 0 0 0 h1 h2]
    unfold combinedDeviancePoint
    rw [zipWith_getD (· + ·) _ _ i 0 0 0 h3 h4]
    push_cast
    rfl

/-- Witness for C5: channel with observed 2, model 1, on-deviance 3 and
off-deviance 1; the residual is `+sqrt(3 + 1)`. -/
theorem claim_C5_witness :
    ((1 : ℚ) ≤ 2 → signElem 2 1 = 1) ∧ ((2 : ℚ) < 1 → signElem 2 1 = -1)
    ∧ signElem (2 : ℚ) 2 = 1
    ∧ (devianceResidualsPoint [2] [1] (combinedDeviancePoint [3] [1])).getD 0 0
      = (signElem (([2] : Arr).getD 0 0) (([1] : Arr).getD 0 0) : ℝ)
        * Real.sqrt ((([3] : Arr).getD 0 0 : ℝ) + (([1] : Arr).getD 0 0 : ℝ)) :=
  claim_C5 2 1 [2] [1] [3] [1] 0 (by decide) (by decide) (by decide) (by decide)

/-- C4 counterexample: the claim quantifies over every channel whose PIT is
exactly 0, for any statistic; but the clipping of `quantile_residuals_mle` is
gated on `statistic in {'pgstat', 'wstat'}`.  For `cstat` (where a PIT of 0
is reachable: `pit_poisson` with `minus=True` yields a lower PIT of
`P(X < 0) = 0` for an observed count of 0, and the randomised PIT drawn
uniformly from `[0, P(X <= 0)]` can be exactly 0), the residual argument
stays 0 — `norm.ppf(0) = -inf` is returned silently — and the upper flag
stays `False`, not `True`. -/
theorem claim_C4_counterexample :
    quantileResidualsMLE "cstat" MLEPlotData.nsim [0] = ([0], [false], [false])
    ∧ (0 : ℚ) ≠ 1 / (MLEPlotData.nsim : ℚ) := by
  constructor
  · rfl
  · norm_num [MLEPlotData.nsim]

/-- C4 (amended): for the Monte-Carlo PIT statistics `pgstat` and `wstat`
(the only ones for which the substitution is performed), a channel whose PIT
is exactly 0 gets the residual `norm.ppf(1/nsim)` with `nsim = 10000` and a
`True` upper flag, every channel with nonzero PIT having a `False` upper
flag; symmetrically a PIT of exactly 1 gets `norm.ppf(1 - 1/nsim)` and a
`True` lower flag; and every returned residual argument lies strictly inside
(0, 1), i.e. no unbounded residual is returned.  Residuals are represented by
the probability argument of `norm.ppf` (see `quantileResidualsMLE`). -/
theorem claim_C4 (stat : String) (pit : List ℚ) (i : ℕ)
    (hstat : stat = "pgstat" ∨ stat = "wstat") (hlen : i < pit.length)
    (hrange : ∀ x ∈ pit, 0 ≤ x ∧ x ≤ 1) :
    (pit.getD i 0 = 0 →
      (quantileResidualsMLE stat MLEPlotData.nsim pit).1.getD i 0
          = 1 / (MLEPlotData.nsim : ℚ)
        ∧ (quantileResidualsMLE stat MLEPlotData.nsim pit).2.2.getD i false = true)
    ∧ (pit.getD i 0 ≠ 0 →
      (quantileResidualsMLE stat MLEPlotData.nsim pit).2.2.getD i false = false)
    ∧ (pit.getD i 0 = 1 →
      (quantileResidualsMLE stat MLEPlotData.nsim pit).1.getD i 0
          = 1 - 1 / (MLEPlotData.nsim : ℚ)
        ∧ (quantileResidualsMLE stat MLEPlotData.nsim pit).2.1.getD i false = true)
    ∧ (pit.getD i 0 ≠ 1 →
      (quantileResidualsMLE stat MLEPlotData.nsim pit).2.1.getD i false = false)
    ∧ (0 < (quantileResidualsMLE stat MLEPlotData.nsim pit).1.getD i 0
        ∧ (quantileResidualsMLE stat MLEPlotData.nsim pit).1.getD i 0 < 1) := by
  have hcond : stat = "pgstat" ∨ stat = "wstat" := hstat
  have hout : quantileResidualsMLE stat MLEPlotData.nsim pit
      = (List.zipWith
          (fun p x => if p = 1 then 1 - 1 / (MLEPlotData.nsim : ℚ) else x) pit
          (pit.map (fun p => if p = 0 then 1 / (MLEPlotData.nsim : ℚ) else p)),
        pit.map (fun p => decide (p = 1)), pit.map (fun p => decide (p = 0))) := by
    unfold quantileResidualsMLE
    rw [if_pos hcond]
  have hmaplen : i < (pit.map
      (fun p => if p = 0 then 1 / (MLEPlotData.nsim : ℚ) else p)).length := by
    simpa using hlen
  have hP := hrange (pit.getD i 0) (getD_mem pit i 0 hlen)
  have hr : (quantileResidualsMLE stat MLEPlotData.nsim pit).1.getD i 0
      = (if pit.getD i 0 = 1 then 1 - 1 / (MLEPlotData.nsim : ℚ)
          else if pit.getD i 0 = 0 then 1 / (MLEPlotData.nsim : ℚ)
          else pit.getD i 0) := by
    rw [hout]
    rw [zipWith_getD
      (fun p x => if p = 1 then 1 - 1 / (MLEPlotData.nsim : ℚ) else x) pit
      (pit.map (fun p => if p = 0 then 1 / (MLEPlotData.nsim : ℚ) else p))
      i 0 0 0 hlen hmaplen]
    rw [map_getD (fun p : ℚ => if p = 0 then 1 / (MLEPlotData.nsim : ℚ) else p)
      pit i 0 0 hlen]
  have hup : (quantileResidualsMLE stat MLEPlotData.nsim pit).2.2.getD i false
      = decide (pit.getD i 0 = 0) := by
    rw [hout]
    exact map_getD (fun p : ℚ => decide (p = 0)) pit i 0 false hlen
  have hlo : (quantileResidualsMLE stat MLEPlotData.nsim pit).2.1.getD i false
      = decide (pit.getD i 0 = 1) := by
    rw [hout]
    exact map_getD (fun p : ℚ => decide (p = 1)) pit i 0 false hlen
  refine ⟨?_, ?_, ?_, ?_, ?_⟩
  · intro h0
    refine ⟨?_, ?_⟩
    · rw [hr, h0]
      norm_num [MLEPlotData.nsim]
    · rw [hup, h0]
      simp
  · intro hne
    rw [hup]
    exact decide_eq_false hne
  · intro h1
    refine ⟨?_, ?_⟩
    · rw [hr, if_pos h1]
    · rw [hlo, h1]
      simp
  · intro hne
    rw [hlo]
    exact decide_eq_false hne
  · rw [hr]
    by_cases e1 : pit.getD i 0 = 1
    · rw [if_pos e1]
      norm_num [MLEPlotData.nsim]
    · rw [if_neg e1]
      by_cases e0 : pit.getD i 0 = 0
      · rw [if_pos e0]
        norm_num [MLEPlotData.nsim]
      · rw [if_neg e0]
        exact ⟨lt_of_le_of_ne hP.1 (Ne.symm e0), lt_of_le_of_ne hP.2 e1⟩

/-- Witness for C4: with statistic `pgstat` and PIT array `[0, 1/2, 1]`, the
first channel is clipped to `1/nsim` with upper flag set, while the second
channel's flags stay `False`. -/
theorem claim_C4_witness :
    (quantileResidualsMLE "pgstat" MLEPlotData.nsim [0, 1/2, 1]).1.getD 0 0
      = 1 / (MLEPlotData.nsim : ℚ)
    ∧ (quantileResidualsMLE "pgstat" MLEPlotData.nsim [0, 1/2, 1]).2.2.getD 0 false = true
    ∧ (quantileResidualsMLE "pgstat" MLEPlotData.nsim [0, 1/2, 1]).2.2.getD 1 false = false
    ∧ (quantileResidualsMLE "pgstat" MLEPlotData.nsim [0, 1/2, 1]).2.1.getD 1 false = false := by
  have hrange : ∀ x ∈ ([0, 1/2, 1] : Arr), 0 ≤ x ∧ x ≤ 1 := by
    intro x hx
    fin_cases hx <;> norm_num
  have h0 := claim_C4 "pgstat" [0, 1/2, 1] 0 (Or.inl rfl) (by decide) hrange
  have h1 := claim_C4 "pgstat" [0, 1/2, 1] 1 (Or.inl rfl) (by decide) hrange
  exact ⟨(h0.1 rfl).1, (h0.1 rfl).2,
    h1.2.1 (by norm_num : (1/2 : ℚ) ≠ 0), h1.2.2.2.1 (by norm_num : (1/2 : ℚ) ≠ 1)⟩

/-- The 2-D bootstrap deviance-residual computation decomposes into one
application of the point formula per replicate row. -/
theorem dev_boot_rows (A B C : Arr2) :
    List.zipWith mulArr (sign_boot A B) (C.map sqrtArr)
      = zip3 (fun a b c => devianceResidualsPoint a b c) A B C := by
  induction A generalizing B C with
  | nil => cases B <;> cases C <;> rfl
  | cons a as ih =>
    cases B with
    | nil => cases C <;> rfl
    | cons b bs =>
      cases C with
      | nil => rfl
      | cons c cs =>
        simp only [sign_boot, List.zipWith_cons_cons, List.map_cons, zip3]
        refine List.cons_eq_cons.mpr ⟨rfl, ?_⟩
        simpa [sign_boot] using ih bs cs

/-- C6 counterexample: with a bootstrap ensemble present, `residuals_sim`
returns `None` for the quantile kind instead of a per-replicate residual
ensemble (the `if self.boot is None or rtype == 'quantile': return None`
guard), so the claim fails for `rtype = 'quantile'`. -/
theorem claim_C6_counterexample :
    residualsSim "cstat"
        (some ⟨[[1]], [[1]], [[1]], [[1]], [[1]], [[1]], [[1]]⟩) [1] [1] "quantile"
      = .ok none := by
  rfl

/-- C6 (amended): with a bootstrap ensemble present, `residuals_sim` applied
to `rtype` in {`deviance`, `pearson`} returns the per-replicate residual
ensemble obtained by applying exactly the point-estimate residual formulas
(`devianceResidualsPoint`, `pearsonResidualFormula`) to each replicate's
arrays, vectorized across the replicate axis; for `rtype = 'quantile'` it
returns `None`. -/
theorem claim_C6 (stat : String) (b : BootEnsemble) (netE backE : Arr)
    (n i : ℕ) (hi : i < n)
    (h1 : b.ceData.length = n) (h2 : b.ceModel.length = n)
    (h3 : b.onData.length = n) (h4 : b.onModel.length = n)
    (h5 : b.offData.length = n) (h6 : b.offModel.length = n)
    (h7 : b.devPoint.length = n) :
    residualsSim stat (some b) netE backE "deviance"
      = .ok (some (zip3 (fun a c d => devianceResidualsPoint a c d)
          b.ceData b.ceModel b.devPoint))
    ∧ residualsSim stat (some b) netE backE "pearson"
      = .ok (some (pearsonResidualsBoot stat b netE backE))
    ∧ (pearsonResidualsBoot stat b netE backE).getD i []
      = pearsonResidualFormula stat (b.ceData.getD i []) (b.ceModel.getD i [])
          (b.onData.getD i []) (b.onModel.getD i []) (b.offData.getD i [])
          (b.offModel.getD i []) netE backE
    ∧ residualsSim stat (some b) netE backE "quantile" = .ok none := by
  refine ⟨?_, ?_, ?_, ?_⟩
  · have hd : residualsSim stat (some b) netE backE "deviance"
        = .ok (some (devianceResidualsBoot b)) := by
      simp [residualsSim]
    rw [hd]
    unfold devianceResidualsBoot
    rw [dev_boot_rows]
  · simp [residualsSim]
  · unfold pearsonResidualsBoot pearsonResidualFormula
    cases hback : STATISTIC_WITH_BACK.contains stat
    · rw [if_neg (show ¬((false : Bool) = true) from by decide)]
      exact zipWith_getD
        (fun dd mm => pearson_residuals dd mm
          (if STATISTIC_SPEC_NORMAL.contains stat = true then some netE else none))
        b.onData b.onModel i [] [] [] (by omega) (by omega)
    · rw [if_pos (show (true : Bool) = true from rfl)]
      rw [zip3_getD quadCombine _ _ _ i [] [] [] []
        (by simp only [sign_boot, List.length_zipWith, h1, h2]; omega)
        (by simp only [List.length_zipWith, h3, h4]; omega)
        (by simp only [List.length_zipWith, h5, h6]; omega)]
      rw [show (sign_boot b.ceData b.ceModel).getD i []
          = whereGe (b.ceData.getD i []) (b.ceModel.getD i []) from by
        unfold sign_boot
        exact zipWith_getD whereGe _ _ i [] [] [] (by omega) (by omega)]
      rw [zipWith_getD
        (fun dd mm => pearson_residuals dd mm
          (if STATISTIC_SPEC_NORMAL.contains stat = true then some netE else none))
        b.onData b.onModel i [] [] [] (by omega) (by omega)]
      rw [zipWith_getD
        (fun dd mm => pearson_residuals dd mm
          (if STATISTIC_BACK_NORMAL.contains stat = true then some backE else none))
        b.offData b.offModel i [] [] [] (by omega) (by omega)]
      rfl
  · rfl

/-- Witness for C6: a single-replicate, single-channel `wstat` ensemble. -/
theorem claim_C6_witness :
    residualsSim "wstat"
        (some ⟨[[2]], [[1]], [[3]], [[2]], [[1]], [[1]], [[4]]⟩) [1] [1] "deviance"
      = .ok (some (zip3 (fun a c d => devianceResidualsPoint a c d)
          [[2]] [[1]] [[4]]))
    ∧ residualsSim "wstat"
        (some ⟨[[2]], [[1]], [[3]], [[2]], [[1]], [[1]], [[4]]⟩) [1] [1] "pearson"
      = .ok (some (pearsonResidualsBoot "wstat"
          ⟨[[2]], [[1]], [[3]], [[2]], [[1]], [[1]], [[4]]⟩ [1] [1]))
    ∧ (pearsonResidualsBoot "wstat"
          ⟨[[2]], [[1]], [[3]], [[2]], [[1]], [[1]], [[4]]⟩ [1] [1]).getD 0 []
      = pearsonResidualFormula "wstat" [2] [1] [3] [2] [1] [1] [1] [1]
    ∧ residualsSim "wstat"
        (some ⟨[[2]], [[1]], [[3]], [[2]], [[1]], [[1]], [[4]]⟩) [1] [1] "quantile"
      = .ok none := by
  have h := claim_C6 "wstat" ⟨[[2]], [[1]], [[3]], [[2]], [[1]], [[1]], [[4]]⟩
    [1] [1] 1 0 (by decide) rfl rfl rfl rfl rfl rfl rfl
  exact h

/-- The binomial pmf is nonnegative for a probability parameter. -/
theorem binomPmf_nonneg (n : ℕ) (p : ℚ) (k : ℕ) (h0 : 0 ≤ p) (h1 : p ≤ 1) :
    0 ≤ binomPmf n p k := by
  unfold binomPmf
  have h2 : (0 : ℚ) ≤ 1 - p := by linarith
  exact mul_nonneg (mul_nonneg (by positivity) (pow_nonneg h0 _))
    (pow_nonneg h2 _)

/-- The binomial CDF vanishes below the support. -/
theorem binomCdf_neg (n : ℕ) (p : ℚ) {k : ℤ} (h : k < 0) :
    binomCdf n p k = 0 := by
  unfold binomCdf
  rw [if_pos h]

/-- The binomial CDF is monotone in the count for a probability parameter. -/
theorem binomCdf_mono (n : ℕ) (p : ℚ) (h0 : 0 ≤ p) (h1 : p ≤ 1) {k k' : ℤ}
    (hkk : k ≤ k') : binomCdf n p k ≤ binomCdf n p k' := by
  unfold binomCdf
  by_cases hk : k < 0
  · rw [if_pos hk]
    by_cases hk' : k' < 0
    · rw [if_pos hk']
    · rw [if_neg hk']
      exact Finset.sum_nonneg (fun j _ => binomPmf_nonneg n p j h0 h1)
  · rw [if_neg hk, if_neg (by omega)]
    apply Finset.sum_le_sum_of_subset_of_nonneg
    · apply Finset.range_subset.mpr
      omega
    · intro j _ _
      exact binomPmf_nonneg n p j h0 h1

/-- At the top of the support the binomial CDF is 1 (binomial theorem). -/
theorem binomCdf_top (n : ℕ) (p : ℚ) : binomCdf n p (n : ℤ) = 1 := by
  unfold binomCdf
  rw [if_neg (by omega)]
  rw [show ((n : ℤ)).toNat = n from rfl, min_self]
  unfold binomPmf
  calc ∑ j in Finset.range (n + 1), (n.choose j : ℚ) * p ^ j * (1 - p) ^ (n - j)
      = ∑ j in Finset.range (n + 1), p ^ j * (1 - p) ^ (n - j) * (n.choose j : ℚ) := by
        refine Finset.sum_congr rfl (fun j _ => by ring)
    _ = (p + (1 - p)) ^ n := (add_pow p (1 - p) n).symm
    _ = 1 := by norm_num

/-- `scipy`'s percent point function never exceeds the top of the support. -/
theorem binomPpf_le (q : ℚ) (n : ℕ) (p : ℚ) : binomPpf q n p ≤ n :=
  Nat.find_min' _ (Or.inl le_rfl)

/-- The CDF at the ppf reaches the requested probability (for `q ≤ 1`). -/
theorem le_cdf_binomPpf (q : ℚ) (n : ℕ) (p : ℚ) (hq : q ≤ 1) :
    q ≤ binomCdf n p (binomPpf q n p : ℤ) := by
  have hs := Nat.find_spec
    (⟨n, Or.inl le_rfl⟩ : ∃ k, n ≤ k ∨ q ≤ binomCdf n p (k : ℤ))
  rcases hs with h1 | h2
  · have heq : binomPpf q n p = n := le_antisymm (binomPpf_le q n p) h1
    rw [heq, binomCdf_top]
    exact hq
  · exact h2

/-- Below the ppf the CDF stays short of the requested probability. -/
theorem cdf_lt_of_lt_binomPpf (q : ℚ) (n : ℕ) (p : ℚ) (j : ℕ)
    (h : j < binomPpf q n p) : binomCdf n p (j : ℤ) < q := by
  have hm := Nat.find_min
    (⟨n, Or.inl le_rfl⟩ : ∃ k, n ≤ k ∨ q ≤ binomCdf n p (k : ℤ)) h
  push_neg at hm
  exact hm.2

/-- The achieved pointwise probability mass between the nudged integer
bounds of the PIT-ECDF band is at least the nominal level. -/
theorem pitEcdf_coverage (n : ℕ) (cl p : ℚ) (hcl0 : 0 < cl) (hcl1 : cl < 1)
    (hp0 : 0 ≤ p) (hp1 : p ≤ 1) :
    cl ≤ binomCdf n p (pitEcdfUpperCount n cl p)
        - binomCdf n p (pitEcdfLowerCount n cl p - 1) := by
  have hup : (1/2 : ℚ) + cl * (1/2) ≤ binomCdf n p (pitEcdfUpperCount n cl p) := by
    unfold pitEcdfUpperCount
    have hq1 : (1/2 : ℚ) + cl * (1/2) ≤ 1 := by linarith
    have hple := le_cdf_binomPpf ((1/2 : ℚ) + cl * (1/2)) n p hq1
    rw [if_neg (not_lt.mpr hple)]
    exact hple
  have hlow : binomCdf n p (pitEcdfLowerCount n cl p - 1) ≤ (1/2 : ℚ) - cl * (1/2) := by
    unfold pitEcdfLowerCount
    have hq0 : (0 : ℚ) ≤ (1/2 : ℚ) - cl * (1/2) := by linarith
    by_cases hz : binomPpf ((1/2 : ℚ) - cl * (1/2)) n p = 0
    · split
      · rw [hz]
        rw [binomCdf_neg n p (by omega)]
        exact hq0
      · rw [hz]
        rw [binomCdf_neg n p (by omega)]
        exact hq0
    · have hlt : binomCdf n p ((binomPpf ((1/2 : ℚ) - cl * (1/2)) n p - 1 : ℕ) : ℤ)
          < (1/2 : ℚ) - cl * (1/2) :=
        cdf_lt_of_lt_binomPpf _ n p _ (by omega)
      have hcast : ((binomPpf ((1/2 : ℚ) - cl * (1/2)) n p - 1 : ℕ) : ℤ)
          = (binomPpf ((1/2 : ℚ) - cl * (1/2)) n p : ℤ) - 1 := by omega
      rw [hcast] at hlt
      split
      · calc binomCdf n p ((binomPpf ((1/2 : ℚ) - cl * (1/2)) n p : ℤ) - 1 - 1)
            ≤ binomCdf n p ((binomPpf ((1/2 : ℚ) - cl * (1/2)) n p : ℤ) - 1) :=
              binomCdf_mono n p hp0 hp1 (by omega)
          _ ≤ (1/2 : ℚ) - cl * (1/2) := le_of_lt hlt
      · exact le_of_lt hlt
  linarith

/-- C7: `get_pit_ecdf` builds a scaled-rank grid of `n + 1` equally spaced
points from 0 to 1; its pointwise lower/upper bounds are the binomial
quantile function at `0.5 - cl/2` and `0.5 + cl/2`, nudged outward by one
count exactly at the grid points where the binomial CDF at the un-nudged
bound misses the requirement (CDF `<= 0.5 - cl/2` for the lower bound, CDF
`>= 0.5 + cl/2` for the upper), then divided by `n` and clipped to [0, 1]
(all encapsulated in `pitEcdfLowerCount`/`pitEcdfUpperCount`/`clipUnit`);
consequently the achieved pointwise coverage — the binomial mass between the
integer bounds at each grid probability — is at least the nominal level. -/
theorem claim_C7 (pit : List ℚ) (cl : ℚ) (hcl0 : 0 < cl) (hcl1 : cl < 1) :
    (get_pit_ecdf pit cl false).1
      = (List.range (pit.length + 1)).map (fun (i : ℕ) => (i : ℚ) / (pit.length : ℚ))
    ∧ (get_pit_ecdf pit cl false).1.length = pit.length + 1
    ∧ (get_pit_ecdf pit cl false).2.2.2.1
      = (scaledRank pit.length).map
          (fun p => clipUnit pit.length (pitEcdfLowerCount pit.length cl p))
    ∧ (get_pit_ecdf pit cl false).2.2.2.2
      = (scaledRank pit.length).map
          (fun p => clipUnit pit.length (pitEcdfUpperCount pit.length cl p))
    ∧ ∀ i, i ≤ pit.length →
        cl ≤ binomCdf pit.length ((i : ℚ) / (pit.length : ℚ))
              (pitEcdfUpperCount pit.length cl ((i : ℚ) / (pit.length : ℚ)))
            - binomCdf pit.length ((i : ℚ) / (pit.length : ℚ))
              (pitEcdfLowerCount pit.length cl ((i : ℚ) / (pit.length : ℚ)) - 1) := by
  refine ⟨rfl, ?_, rfl, rfl, ?_⟩
  · rw [show (get_pit_ecdf pit cl false).1 = scaledRank pit.length from rfl]
    simp [scaledRank]
  · intro i hi
    have hp0 : (0 : ℚ) ≤ (i : ℚ) / (pit.length : ℚ) := by positivity
    have hp1 : (i : ℚ) / (pit.length : ℚ) ≤ 1 := by
      rcases Nat.eq_zero_or_pos pit.length with hn | hn
      · have hi0 : i = 0 := by omega
        subst hi0
        rw [hn]
        norm_num
      · rw [div_le_one (by exact_mod_cast hn)]
        exact_mod_cast hi
    exact pitEcdf_coverage pit.length cl _ hcl0 hcl1 hp0 hp1

/-- Witness for C7: two PIT values at level 1/2. -/
theorem claim_C7_witness :
    (get_pit_ecdf [1/4, 3/4] (1/2) false).1
      = (List.range 3).map (fun (i : ℕ) => (i : ℚ) / (2 : ℚ))
    ∧ (get_pit_ecdf [1/4, 3/4] (1/2) false).1.length = 3
    ∧ (1/2 : ℚ) ≤ binomCdf 2 ((1 : ℚ) / 2)
          (pitEcdfUpperCount 2 (1/2) ((1 : ℚ) / 2))
        - binomCdf 2 ((1 : ℚ) / 2)
          (pitEcdfLowerCount 2 (1/2) ((1 : ℚ) / 2) - 1) := by
  have h := claim_C7 [1/4, 3/4] (1/2) (by norm_num) (by norm_num)
  refine ⟨?_, ?_, ?_⟩
  · have := h.1
    simpa using this
  · have := h.2.1
    simpa using this
  · have := h.2.2.2.2 1 (by norm_num)
    simpa using this

/-- Boolean `contains` agrees with list membership. -/
theorem contains_eq_mem (l : List String) (a : String) :
    l.contains a = true ↔ a ∈ l := by
  simp

/-- Filtering an association list by a key predicate keeps lookups of keys
satisfying the predicate. -/
theorem alookup_filter {α : Type} (pred : String → Bool)
    (l : List (String × α)) (k : String) (hk : pred k = true) :
    alookup (l.filter (fun kv => pred kv.1)) k = alookup l k := by
  induction l with
  | nil => rfl
  | cons kv rest ih =>
    by_cases heq : kv.1 = k
    · have hkeep : pred kv.1 = true := by rw [heq, hk]
      rw [List.filter_cons, if_pos (by simpa using hkeep)]
      simp only [alookup, if_pos heq]
    · cases hkeep : pred kv.1 with
      | true =>
        rw [List.filter_cons, if_pos (by simpa using hkeep)]
        simp only [alookup, if_neg heq]
        exact ih
      | false =>
        rw [List.filter_cons, if_neg (by simp [hkeep])]
        simp only [alookup, if_neg heq]
        exact ih

/-- Lookup in a dict built by mapping keys to values. -/
theorem alookup_map_self {α : Type} (g : String → α) (xs : List String)
    (k : String) (hk : k ∈ xs) :
    alookup (xs.map (fun x => (x, g x))) k = some (g k) := by
  induction xs with
  | nil => cases hk
  | cons x rest ih =>
    rw [List.map_cons]
    by_cases heq : x = k
    · subst heq
      simp [alookup]
    · rcases List.mem_cons.mp hk with h | h
      · exact absurd h.symm heq
      · simp only [alookup, if_neg heq]
        exact ih h

/-- A key-preserving value map on an association list preserves whether a
lookup succeeds. -/
theorem alookup_map_pair {α β : Type} (g : String × α → β)
    (l : List (String × α)) (k : String) :
    (alookup (l.map (fun kv => (kv.1, g kv))) k).isSome
      = (alookup l k).isSome := by
  induction l with
  | nil => rfl
  | cons kv rest ih =>
    rw [List.map_cons]
    simp only [alookup]
    by_cases heq : kv.1 = k
    · simp only [if_pos heq]
      rfl
    · simp only [if_neg heq]
      exact ih

/-- Lookup in an appended association list tries the left part first. -/
theorem alookup_append {α : Type} (l1 l2 : List (String × α)) (k : String) :
    alookup (l1 ++ l2) k
      = (match alookup l1 k with
        | some v => some v
        | none => alookup l2 k) := by
  induction l1 with
  | nil => rfl
  | cons kv rest ih =>
    rw [List.cons_append]
    simp only [alookup]
    by_cases heq : kv.1 = k
    · simp only [if_pos heq]
    · simp only [if_neg heq]
      exact ih

/-- A key listed among an association list's keys can be looked up. -/
theorem alookup_isSome_of_keys {α : Type} (out : List (String × α))
    (k : String) (h : k ∈ out.map Prod.fst) : (alookup out k).isSome = true := by
  induction out with
  | nil => cases h
  | cons kv rest ih =>
    rw [List.map_cons] at h
    simp only [alookup]
    by_cases heq : kv.1 = k
    · simp only [if_pos heq]
      rfl
    · simp only [if_neg heq]
      rcases List.mem_cons.mp h with h' | h'
      · exact absurd h'.symm heq
      · exact ih h'

/-- A successful `Except.map` comes from a successful computation. -/
theorem exceptMap_ok {α β : Type} {e : Except String α} {g : α → β} {w : β}
    (h : e.map g = .ok w) : ∃ u, e = .ok u ∧ w = g u := by
  cases e with
  | error err => simp [Except.map] at h
  | ok u =>
    refine ⟨u, rfl, ?_⟩
    simpa [Except.map] using h.symm

/-- A successful dict read. -/
theorem dread_ok {α : Type} (d : List (String × α)) (k : String)
    (h : (alookup d k).isSome = true) :
    ∃ v, dread d k = .ok v ∧ alookup d k = some v := by
  cases hd : alookup d k with
  | none => rw [hd] at h; cases h
  | some v =>
    refine ⟨v, ?_, rfl⟩
    unfold dread
    rw [hd]

/-- An errorless dict comprehension: all per-key computations succeed, the
output keys are the requested ones in order, and every output pair records
its computation. -/
theorem mapPairs_ok {α : Type} (f : String → Except String α)
    (ks : List String) (h : ∀ k ∈ ks, ∃ v, f k = .ok v) :
    ∃ out, mapPairs f ks = .ok out ∧ out.map Prod.fst = ks
      ∧ ∀ kv ∈ out, f kv.1 = .ok kv.2 := by
  induction ks with
  | nil => exact ⟨[], rfl, rfl, by simp⟩
  | cons k ks ih =>
    obtain ⟨v, hv⟩ := h k (List.mem_cons_self k ks)
    obtain ⟨out, hout, hkeys, hvals⟩ :=
      ih (fun k' hk' => h k' (List.mem_cons_of_mem _ hk'))
    refine ⟨(k, v) :: out, ?_, by simp [hkeys], ?_⟩
    · unfold mapPairs
      rw [hv, hout]
    · intro kv hkv
      rcases List.mem_cons.mp hkv with h' | h'
      · rw [h']
        exact hv
      · exact hvals kv h'

/-- With a valid fit, `boot` always succeeds. -/
theorem boot_valid_ok (benv : BootEnv) (st : MLEState) (n : ℕ)
    (hv : st.valid = true) :
    ∃ b st' f, MLEResult.boot benv st n = (.ok b, st', f) := by
  unfold MLEResult.boot
  rw [hv]
  simp only [Bool.true_eq_false, if_false]
  cases hc : st.cachedBoot with
  | none => exact ⟨_, _, _, rfl⟩
  | some b0 =>
    simp only []
    by_cases hcond : b0.n = n ∧ b0.seed = st.seed
    · rw [if_pos hcond]
      exact ⟨b0, st, false, rfl⟩
    · rw [if_neg hcond]
      exact ⟨_, _, _, rfl⟩

/-- The parameter dict of any successfully returned bootstrap result can be
looked up at any known parameter name, provided the cached result (if any)
could. -/
theorem boot_ok_params (benv : BootEnv) (st : MLEState) (n : ℕ)
    (b : BootstrapResult) (st' : MLEState) (f : Bool) (p : String)
    (hv : st.valid = true)
    (h : MLEResult.boot benv st n = (.ok b, st', f))
    (hp : benv.paramsNames.contains p = true)
    (hc : ∀ b0, st.cachedBoot = some b0 → (alookup b0.params p).isSome = true) :
    (alookup b.params p).isSome = true := by
  have hfresh : (alookup
      (benv.paramsNames.map (fun k => (k, (List.range n).map (benv.refitParam k)))) p).isSome
      = true := by
    rw [alookup_map_self (fun k => (List.range n).map (benv.refitParam k))
      benv.paramsNames p ((contains_eq_mem _ _).mp hp)]
    rfl
  unfold MLEResult.boot at h
  rw [hv] at h
  simp only [Bool.true_eq_false, if_false] at h
  split at h
  · rename_i b0 hc0
    split at h
    · simp only [Prod.mk.injEq, Except.ok.injEq] at h
      rw [← h.1]
      exact hc b0 hc0
    · unfold MLEResult.bootCompute at h
      simp only [Prod.mk.injEq, Except.ok.injEq] at h
      rw [← h.1]
      exact hfresh
  · unfold MLEResult.bootCompute at h
    simp only [Prod.mk.injEq, Except.ok.injEq] at h
    rw [← h.1]
    exact hfresh

/-- A lookup in an appended association list succeeds when it succeeds in
either part. -/
theorem alookup_append_isSome {α : Type} (l1 l2 : List (String × α))
    (k : String)
    (h : (alookup l1 k).isSome = true ∨ (alookup l2 k).isSome = true) :
    (alookup (l1 ++ l2) k).isSome = true := by
  rw [alookup_append]
  cases h1 : alookup l1 k with
  | some v => rfl
  | none =>
    rcases h with h | h
    · rw [h1] at h
      cases h
    · exact h

/-- C10: every successful `ci` request for a sequence of known parameter
names — with either method — returns a `ConfidenceInterval` whose `mle`,
`interval` and `error` dicts have exactly the requested names as keys, in
request order, and every numeric entry coerced to Python float by
`format_result`. -/
theorem claim_C10 (env : FitEnv) (sf : ℚ → ℚ) (benv : BootEnv) (st : MLEState)
    (cl : ℚ) (nOpt : Option ℕ) (ps : List String) (method : String)
    (hv : st.valid = true)
    (hmethod : method = "profile" ∨ method = "boot")
    (hknown : ∀ p ∈ ps, env.paramsNames.contains p = true)
    (hsplit : ∀ p ∈ ps, env.freeNames.contains p = true
      ∨ env.compositeNames.contains p = true)
    (hres : ∀ p ∈ ps, (alookup env.resultParams p).isSome = true)
    (hbenv : ∀ p ∈ ps, benv.paramsNames.contains p = true)
    (hcache : ∀ b0, st.cachedBoot = some b0 →
      ∀ p ∈ ps, (alookup b0.params p).isSome = true) :
    ∃ r st',
      MLEResult.ci env sf benv st (some (.inr ps)) cl method nOpt = (.ok r, st')
      ∧ r.mle.map Prod.fst = ps
      ∧ r.interval.map Prod.fst = ps
      ∧ r.error.map Prod.fst = ps
      ∧ (∀ kv ∈ r.mle, kv.2.isFloat = true)
      ∧ (∀ kv ∈ r.interval, kv.2.1.isFloat = true ∧ kv.2.2.isFloat = true)
      ∧ (∀ kv ∈ r.error, kv.2.1.isFloat = true ∧ kv.2.2.isFloat = true) := by
  have hall : (ps.all fun p => env.paramsNames.contains p) = true :=
    List.all_eq_true.mpr hknown
  have hre : resolveParams env (some (.inr ps)) = .ok ps := by
    simp only [resolveParams]
    rw [if_pos hall]
  have hmleLook : ∀ p ∈ ps,
      (alookup (env.resultParams.filter (fun kv => ps.contains kv.1)) p).isSome
        = true := by
    intro p hp
    rw [alookup_filter (fun k => ps.contains k) env.resultParams p
      ((contains_eq_mem ps p).mpr hp)]
    exact hres p hp
  have hfmtScalar :
      ∃ out, formatScalars ps (env.resultParams.filter (fun kv => ps.contains kv.1))
          = .ok out ∧ out.map Prod.fst = ps
        ∧ ∀ kv ∈ out, kv.2.isFloat = true := by
    obtain ⟨out, hout, hkeys, hvals⟩ := mapPairs_ok
      (fun k => (dread (env.resultParams.filter (fun kv => ps.contains kv.1)) k).map
        (fun v => PyNum.float v)) ps (by
        intro k hk
        obtain ⟨v, hdr, _⟩ := dread_ok _ k (hmleLook k hk)
        exact ⟨PyNum.float v, by simp only [hdr, Except.map]⟩)
    refine ⟨out, hout, hkeys, ?_⟩
    intro kv hkv
    obtain ⟨u, _, hw⟩ := exceptMap_ok (hvals kv hkv)
    rw [hw]
    rfl
  have hfmtPair : ∀ (d : List (String × (ℚ × ℚ))),
      (∀ p ∈ ps, (alookup d p).isSome = true) →
      ∃ out, formatPairs ps d = .ok out ∧ out.map Prod.fst = ps
        ∧ ∀ kv ∈ out, kv.2.1.isFloat = true ∧ kv.2.2.isFloat = true := by
    intro d hd
    obtain ⟨out, hout, hkeys, hvals⟩ := mapPairs_ok
      (fun k => (dread d k).map (fun v => (PyNum.float v.1, PyNum.float v.2))) ps (by
        intro k hk
        obtain ⟨v, hdr, _⟩ := dread_ok d k (hd k hk)
        exact ⟨(PyNum.float v.1, PyNum.float v.2), by simp only [hdr, Except.map]⟩)
    refine ⟨out, hout, hkeys, ?_⟩
    intro kv hkv
    obtain ⟨u, _, hw⟩ := exceptMap_ok (hvals kv hkv)
    rw [hw]
    exact ⟨rfl, rfl⟩
  have hassemble : ∀ (iv er : List (String × (ℚ × ℚ))) (stt : CIStatus)
      (meth : String),
      (∀ p ∈ ps, (alookup iv p).isSome = true) →
      (∀ p ∈ ps, (alookup er p).isSome = true) →
      ∃ r, ciAssemble ps (env.resultParams.filter (fun kv => ps.contains kv.1))
          (normCl sf cl) meth (iv, er, stt) = .ok r
        ∧ r.mle.map Prod.fst = ps ∧ r.interval.map Prod.fst = ps
        ∧ r.error.map Prod.fst = ps
        ∧ (∀ kv ∈ r.mle, kv.2.isFloat = true)
        ∧ (∀ kv ∈ r.interval, kv.2.1.isFloat = true ∧ kv.2.2.isFloat = true)
        ∧ (∀ kv ∈ r.error, kv.2.1.isFloat = true ∧ kv.2.2.isFloat = true) := by
    intro iv er stt meth hiv her
    obtain ⟨fm, hfm, hfmk, hfmv⟩ := hfmtScalar
    obtain ⟨fi, hfi, hfik, hfiv⟩ := hfmtPair iv hiv
    obtain ⟨fe, hfe, hfek, hfev⟩ := hfmtPair er her
    refine ⟨⟨fm, fi, fe, normCl sf cl, meth, stt⟩, ?_, hfmk, hfik, hfek,
      hfmv, hfiv, hfev⟩
    unfold ciAssemble
    rw [hfm, hfi, hfe]
  rcases hmethod with hm | hm
  · subst hm
    obtain ⟨errF, hEF, hEFk, _⟩ := mapPairs_ok
      (fun k => (dread (env.resultParams.filter (fun kv => ps.contains kv.1)) k).map
        (fun mk => ((env.profileBounds k (normCl sf cl)).1 - mk,
          (env.profileBounds k (normCl sf cl)).2 - mk)))
      (ps.filter (fun p => env.freeNames.contains p)) (by
        intro k hk
        obtain ⟨v, hdr, _⟩ := dread_ok _ k (hmleLook k (List.mem_filter.mp hk).1)
        exact ⟨((env.profileBounds k (normCl sf cl)).1 - v,
          (env.profileBounds k (normCl sf cl)).2 - v),
          by simp only [hdr, Except.map]⟩)
    obtain ⟨intC, hIC, hICk, _⟩ := mapPairs_ok
      (fun p => (dread (env.resultParams.filter (fun kv => ps.contains kv.1)) p).map
        (fun mp => (mp + (env.compositeErrors p (normCl sf cl)).1,
          mp + (env.compositeErrors p (normCl sf cl)).2)))
      (ps.filter (fun p => env.compositeNames.contains p)) (by
        intro k hk
        obtain ⟨v, hdr, _⟩ := dread_ok _ k (hmleLook k (List.mem_filter.mp hk).1)
        exact ⟨(v + (env.compositeErrors k (normCl sf cl)).1,
          v + (env.compositeErrors k (normCl sf cl)).2),
          by simp only [hdr, Except.map]⟩)
    have hPC : profileCore env (ps.filter (fun p => env.freeNames.contains p))
        (ps.filter (fun p => env.compositeNames.contains p))
        (env.resultParams.filter (fun kv => ps.contains kv.1)) (normCl sf cl)
        = .ok ((ps.filter (fun p => env.freeNames.contains p)).map
              (fun k => (k, env.profileBounds k (normCl sf cl))) ++ intC,
            errF ++ (ps.filter (fun p => env.compositeNames.contains p)).map
              (fun p => (p, env.compositeErrors p (normCl sf cl))),
            CIStatus.profile
              ((ps.filter (fun p => env.freeNames.contains p)).map
                  (fun k => (k, env.profileStatus k (normCl sf cl)))
                ++ (ps.filter (fun p => env.compositeNames.contains p)).map
                  (fun p => (p, env.compositeStatus p (normCl sf cl))))) := by
      unfold profileCore
      simp only []
      rw [hEF, hIC]
    have hivLook : ∀ p ∈ ps,
        (alookup ((ps.filter (fun p => env.freeNames.contains p)).map
            (fun k => (k, env.profileBounds k (normCl sf cl))) ++ intC) p).isSome
          = true := by
      intro p hp
      apply alookup_append_isSome
      rcases hsplit p hp with hf | hc2
      · left
        rw [alookup_map_self (fun k => env.profileBounds k (normCl sf cl)) _ p
          (List.mem_filter.mpr ⟨hp, hf⟩)]
        rfl
      · right
        exact alookup_isSome_of_keys intC p
          (by rw [hICk]; exact List.mem_filter.mpr ⟨hp, hc2⟩)
    have herLook : ∀ p ∈ ps,
        (alookup (errF ++ (ps.filter (fun p => env.compositeNames.contains p)).map
            (fun p => (p, env.compositeErrors p (normCl sf cl)))) p).isSome
          = true := by
      intro p hp
      apply alookup_append_isSome
      rcases hsplit p hp with hf | hc2
      · left
        exact alookup_isSome_of_keys errF p
          (by rw [hEFk]; exact List.mem_filter.mpr ⟨hp, hf⟩)
      · right
        rw [alookup_map_self (fun p => env.compositeErrors p (normCl sf cl)) _ p
          (List.mem_filter.mpr ⟨hp, hc2⟩)]
        rfl
    obtain ⟨r, hA, hk1, hk2, hk3, hv1, hv2, hv3⟩ :=
      hassemble
        ((ps.filter (fun p => env.freeNames.contains p)).map
            (fun k => (k, env.profileBounds k (normCl sf cl))) ++ intC)
        (errF ++ (ps.filter (fun p => env.compositeNames.contains p)).map
            (fun p => (p, env.compositeErrors p (normCl sf cl))))
        (CIStatus.profile
          ((ps.filter (fun p => env.freeNames.contains p)).map
              (fun k => (k, env.profileStatus k (normCl sf cl)))
            ++ (ps.filter (fun p => env.compositeNames.contains p)).map
              (fun p => (p, env.compositeStatus p (normCl sf cl)))))
        "profile" hivLook herLook
    refine ⟨r, st, ?_, hk1, hk2, hk3, hv1, hv2, hv3⟩
    unfold MLEResult.ci MLEResult.ciWithLevel
    rw [hv]
    simp only [Bool.true_eq_false, if_false]
    rw [hre]
    simp only []
    rw [if_true]
    rw [hPC]
    simp only []
    rw [hA]
  · subst hm
    obtain ⟨b, stb, fb, hb⟩ := boot_valid_ok benv st (nOpt.getD 10000) hv
    have hbp : ∀ p ∈ ps, (alookup b.params p).isSome = true := by
      intro p hp
      exact boot_ok_params benv st (nOpt.getD 10000) b stb fb p hv hb
        (hbenv p hp) (fun b0 hb0 => hcache b0 hb0 p hp)
    have hivLook : ∀ p ∈ ps,
        (alookup ((b.params.filter (fun kv => ps.contains kv.1)).map
            (fun kv => (kv.1, (npQuantile kv.2 (1/2 - (normCl sf cl)/2),
              npQuantile kv.2 (1/2 + (normCl sf cl)/2))))) p).isSome = true := by
      intro p hp
      rw [alookup_map_pair]
      rw [alookup_filter (fun k => ps.contains k) b.params p
        ((contains_eq_mem ps p).mpr hp)]
      exact hbp p hp
    obtain ⟨errB, hEB, hEBk, _⟩ := mapPairs_ok
      (fun k => match dread ((b.params.filter (fun kv => ps.contains kv.1)).map
            (fun kv => (kv.1, (npQuantile kv.2 (1/2 - (normCl sf cl)/2),
              npQuantile kv.2 (1/2 + (normCl sf cl)/2))))) k,
          dread (env.resultParams.filter (fun kv => ps.contains kv.1)) k with
        | .ok iv, .ok mk => .ok (iv.1 - mk, iv.2 - mk)
        | .error e, _ => .error e
        | _, .error e => .error e) ps (by
        intro k hk
        obtain ⟨iv0, hdiv, _⟩ := dread_ok _ k (hivLook k hk)
        obtain ⟨mk0, hdmk, _⟩ := dread_ok _ k (hmleLook k hk)
        exact ⟨(iv0.1 - mk0, iv0.2 - mk0), by simp only [hdiv, hdmk]⟩)
    have hBC : bootCore ps (env.resultParams.filter (fun kv => ps.contains kv.1))
        (normCl sf cl) b
        = .ok ((b.params.filter (fun kv => ps.contains kv.1)).map
            (fun kv => (kv.1, (npQuantile kv.2 (1/2 - (normCl sf cl)/2),
              npQuantile kv.2 (1/2 + (normCl sf cl)/2)))), errB,
            CIStatus.boot b.n b.nValid) := by
      unfold bootCore
      simp only []
      rw [hEB]
    have herLook : ∀ p ∈ ps, (alookup errB p).isSome = true := by
      intro p hp
      exact alookup_isSome_of_keys errB p (by rw [hEBk]; exact hp)
    obtain ⟨r, hA, hk1, hk2, hk3, hv1, hv2, hv3⟩ :=
      hassemble
        ((b.params.filter (fun kv => ps.contains kv.1)).map
            (fun kv => (kv.1, (npQuantile kv.2 (1/2 - (normCl sf cl)/2),
              npQuantile kv.2 (1/2 + (normCl sf cl)/2)))))
        errB (CIStatus.boot b.n b.nValid) "boot" hivLook herLook
    refine ⟨r, stb, ?_, hk1, hk2, hk3, hv1, hv2, hv3⟩
    unfold MLEResult.ci MLEResult.ciWithLevel
    rw [hv]
    simp only [Bool.true_eq_false, if_false]
    rw [hre]
    simp only []
    rw [if_neg (show ¬(("boot" : String) = "profile") from by decide)]
    rw [if_true]
    rw [hb]
    simp only []
    rw [hBC]
    simp only []
    rw [hA]

/-- Witness for C10: a two-parameter fit (free `a`, composite `c`) queried
for `["a", "c"]` with both methods. -/
theorem claim_C10_witness :
    (∃ r st',
      MLEResult.ci
        ⟨["a", "c"], ["a"], ["c"], ["a"], [("a", 1), ("c", 2)],
          fun _ _ => (0, 1),
          fun _ _ => ⟨(true, true), (false, false), (false, false), (false, false)⟩,
          fun _ _ => (0, 1),
          fun _ _ => ⟨(true, true), (false, false), (false, false), (false, false)⟩⟩
        (fun _ => 1/4)
        ⟨["a", "c"], fun _ => 0, fun _ _ => 0, fun _ => 0, fun _ => true⟩
        ⟨true, 5, none, 0⟩ (some (.inr ["a", "c"])) 1 "profile" (some 2)
        = (.ok r, st')
      ∧ r.mle.map Prod.fst = ["a", "c"]
      ∧ r.interval.map Prod.fst = ["a", "c"]
      ∧ r.error.map Prod.fst = ["a", "c"]
      ∧ (∀ kv ∈ r.mle, kv.2.isFloat = true)
      ∧ (∀ kv ∈ r.interval, kv.2.1.isFloat = true ∧ kv.2.2.isFloat = true)
      ∧ (∀ kv ∈ r.error, kv.2.1.isFloat = true ∧ kv.2.2.isFloat = true))
    ∧ (∃ r st',
      MLEResult.ci
        ⟨["a", "c"], ["a"], ["c"], ["a"], [("a", 1), ("c", 2)],
          fun _ _ => (0, 1),
          fun _ _ => ⟨(true, true), (false, false), (false, false), (false, false)⟩,
          fun _ _ => (0, 1),
          fun _ _ => ⟨(true, true), (false, false), (false, false), (false, false)⟩⟩
        (fun _ => 1/4)
        ⟨["a", "c"], fun _ => 0, fun _ _ => 0, fun _ => 0, fun _ => true⟩
        ⟨true, 5, none, 0⟩ (some (.inr ["a", "c"])) 1 "boot" (some 2)
        = (.ok r, st')
      ∧ r.mle.map Prod.fst = ["a", "c"]
      ∧ r.interval.map Prod.fst = ["a", "c"]
      ∧ r.error.map Prod.fst = ["a", "c"]
      ∧ (∀ kv ∈ r.mle, kv.2.isFloat = true)
      ∧ (∀ kv ∈ r.interval, kv.2.1.isFloat = true ∧ kv.2.2.isFloat = true)
      ∧ (∀ kv ∈ r.error, kv.2.1.isFloat = true ∧ kv.2.2.isFloat = true)) := by
  constructor
  · exact claim_C10
      ⟨["a", "c"], ["a"], ["c"], ["a"], [("a", 1), ("c", 2)],
        fun _ _ => (0, 1),
        fun _ _ => ⟨(true, true), (false, false), (false, false), (false, false)⟩,
        fun _ _ => (0, 1),
        fun _ _ => ⟨(true, true), (false, false), (false, false), (false, false)⟩⟩
      (fun _ => 1/4)
      ⟨["a", "c"], fun _ => 0, fun _ _ => 0, fun _ => 0, fun _ => true⟩
      ⟨true, 5, none, 0⟩ 1 (some 2) ["a", "c"] "profile" rfl (Or.inl rfl)
      (by decide) (by decide) (by decide) (by decide)
      (fun b0 hb0 => by cases hb0)
  · exact claim_C10
      ⟨["a", "c"], ["a"], ["c"], ["a"], [("a", 1), ("c", 2)],
        fun _ _ => (0, 1),
        fun _ _ => ⟨(true, true), (false, false), (false, false), (false, false)⟩,
        fun _ _ => (0, 1),
        fun _ _ => ⟨(true, true), (false, false), (false, false), (false, false)⟩⟩
      (fun _ => 1/4)
      ⟨["a", "c"], fun _ => 0, fun _ _ => 0, fun _ => 0, fun _ => true⟩
      ⟨true, 5, none, 0⟩ 1 (some 2) ["a", "c"] "boot" rfl (Or.inr rfl)
      (by decide) (by decide) (by decide) (by decide)
      (fun b0 hb0 => by cases hb0)

end Elisa
